import Mathlib

/-!
Verification of the DDL catalog-mutation core (`pkg/sql/create.go`) of a
distributed SQL database.  The Go source is shallowly embedded: descriptors
become Lean structures, the statement-processing functions become pure Lean
functions returning `Except String` for the Go `error` results, and the
byte-level value encoding of partition tuples is abstracted to a list of
encoding tokens (one token per encoded datum, preserving exactly the
distinction the code draws between the reserved "NOT NULL, no column id"
marker and an ordinary encoded value).

Helper routines of the `sqlbase` package that the file calls but whose source
is not part of this repository slice (`AllocateIDs`, `FindActiveColumnsByNames`,
`FindIndexByName`, `AddIndex`, `AddIndexMutation`) are modelled from the
specification; each such definition carries a doc comment saying so.
-/

/-! ## Data model (sqlbase descriptors) -/

/-- Direction of an index column (`IndexDescriptor_Direction`). -/
inductive IndexDirection
  | asc
  | desc
deriving DecidableEq, Repr

/-- Column type: the FK checks compare only the semantic type, the interleave
check compares full types (`col.Type.Equal`), so we keep both a semantic tag
and a width. -/
structure ColumnType where
  semanticType : Nat
  width : Nat := 0
deriving DecidableEq, Repr

/-- `sqlbase.ColumnDescriptor` (the fields this file reads). -/
structure ColumnDescriptor where
  id : Nat := 0
  name : String
  typ : ColumnType
  nullable : Bool := true
deriving DecidableEq, Repr

/-- `sqlbase.ConstraintValidity`. -/
inductive Validity
  | validated
  | unvalidated
deriving DecidableEq, Repr

/-- `tree.ReferenceAction` / `sqlbase.ForeignKeyReference_Action`. -/
inductive FKAction
  | noAction
  | restrict
  | cascade
  | setNull
  | setDefault
deriving DecidableEq, Repr

/-- `sqlbase.ForeignKeyReference`.  A back-reference uses the same message with
only `table` and `index` set, exactly as the Go code does. -/
structure ForeignKeyReference where
  table : Nat := 0
  index : Nat := 0
  name : String := ""
  sharedPrefixLen : Nat := 0
  onDelete : FKAction := .noAction
  onUpdate : FKAction := .noAction
  validity : Validity := .validated
deriving DecidableEq, Repr

/-- `sqlbase.InterleaveDescriptor_Ancestor`; `sharedPrefixLen` is a `uint32`
in Go, modelled as a `Nat` that every construction keeps below `2 ^ 32`. -/
structure InterleaveAncestor where
  tableID : Nat
  indexID : Nat
  sharedPrefixLen : Nat
deriving DecidableEq, Repr

/-- `sqlbase.IndexDescriptor` (the fields this file reads).  The Go
`ForeignKey` field with its `IsSet` test (zero value = unset) is modelled as
an `Option`. -/
structure IndexDescriptor where
  id : Nat := 0
  name : String := ""
  unique : Bool := false
  columnIDs : List Nat := []
  columnNames : List String := []
  columnDirections : List IndexDirection := []
  storeColumnNames : List String := []
  foreignKey : Option ForeignKeyReference := none
  referencedBy : List ForeignKeyReference := []
  interleaveAncestors : List InterleaveAncestor := []
  interleavedBy : List ForeignKeyReference := []
deriving DecidableEq, Repr

/-- `sqlbase.TableDescriptor_State`. -/
inductive TableState
  | publicState
  | addState
  | dropState
deriving DecidableEq, Repr

/-- `sqlbase.DescriptorMutation_Direction`. -/
inductive MutationDirection
  | add
  | drop
deriving DecidableEq, Repr

/-- A pending `sqlbase.DescriptorMutation` holding an index. -/
structure TableMutation where
  index : Option IndexDescriptor := none
  direction : MutationDirection
  mutationID : Nat := 0
deriving DecidableEq, Repr

/-- `sqlbase.TableDescriptor` (the fields this file reads).  `upVersion`
models the flag raised by `SetUpVersion`. -/
structure TableDescriptor where
  id : Nat
  name : String
  state : TableState := .publicState
  version : Nat := 1
  upVersion : Bool := false
  columns : List ColumnDescriptor := []
  primaryIndex : IndexDescriptor
  indexes : List IndexDescriptor := []
  mutations : List TableMutation := []
  nextIndexID : Nat := 1
deriving DecidableEq, Repr

/-- Column lookup by name among the table's active columns. -/
def findColumnByName (tbl : TableDescriptor) (n : String) : Option ColumnDescriptor :=
  tbl.columns.find? (fun c => c.name == n)

/-- `FindColumnByID`: column lookup by id. -/
def findColumnByID (tbl : TableDescriptor) (id : Nat) : Option ColumnDescriptor :=
  tbl.columns.find? (fun c => c.id == id)

/-- Equality of embedded results is decidable, so concrete runs can be checked
by `decide`. -/
instance exceptDecEq {ε α : Type} [DecidableEq ε] [DecidableEq α] :
    DecidableEq (Except ε α) := fun a b =>
  match a, b with
  | .ok x, .ok y =>
    if h : x = y then .isTrue (by rw [h])
    else .isFalse (by intro hc; cases hc; exact h rfl)
  | .error x, .error y =>
    if h : x = y then .isTrue (by rw [h])
    else .isFalse (by intro hc; cases hc; exact h rfl)
  | .ok _, .error _ => .isFalse (by intro hc; cases hc)
  | .error _, .ok _ => .isFalse (by intro hc; cases hc)

/-- Error-propagating map over a list, in input order with fail-fast errors:
the shape of every Go loop of this file that builds a list and returns on the
first error. -/
def mapME (f : α → Except String β) : List α → Except String (List β)
  | [] => Except.ok []
  | x :: xs => do
    let y ← f x
    let ys ← mapME f xs
    Except.ok (y :: ys)

/-- Error-propagating iteration over a list, discarding results: the shape of
the Go check loops that return on the first error. -/
def forME (f : α → Except String Unit) : List α → Except String Unit
  | [] => Except.ok ()
  | x :: xs => do
    let _ ← f x
    forME f xs

/-- Modelled from the spec: `sqlbase.(*TableDescriptor).FindActiveColumnsByNames`
(not part of this repository slice) resolves each name to an active column of
the table, failing on an unknown name. -/
def lookupCols (tbl : TableDescriptor) (names : List String) : Except String (List ColumnDescriptor) :=
  mapME (fun n =>
    match findColumnByName tbl n with
    | some c => Except.ok c
    | none => Except.error ("column " ++ n ++ " does not exist")) names

/-! ## CREATE DATABASE planning (planner.CreateDatabase, create.go lines 50-90) -/

/-- `tree.CreateDatabase` (the fields the planner validates). -/
structure CreateDatabaseStmt where
  name : String
  template : String := ""
  encoding : String := ""
  collate : String := ""
  ctype : String := ""
deriving DecidableEq, Repr

/-- ASCII lower-casing of one character code. -/
def foldCode (n : Nat) : Nat :=
  if 65 ≤ n && n ≤ 90 then n + 32 else n

/-- Modelled from the spec: Go `strings.EqualFold`, restricted to the ASCII
alphabets that the accepted option values use — compare with both sides
lower-cased. -/
def equalFold (a b : String) : Bool :=
  a.data.map (fun c => foldCode c.toNat) == b.data.map (fun c => foldCode c.toNat)

/-- `planner.CreateDatabase`: option validation and superuser check; `.ok ()`
stands for returning the `createDatabaseNode` plan node. -/
def CreateDatabase (isSuperUser : Bool) (n : CreateDatabaseStmt) : Except String Unit :=
  if n.name == "" then
    Except.error "empty database name"
  else if n.template != "" && !equalFold n.template "template0" then
    Except.error ("unsupported template: " ++ n.template)
  else if n.encoding != "" &&
      !(equalFold n.encoding "UTF8" || equalFold n.encoding "UTF-8" ||
        equalFold n.encoding "UNICODE") then
    Except.error ("unsupported encoding: " ++ n.encoding)
  else if n.collate != "" && !(n.collate == "C" || n.collate == "C.UTF-8") then
    Except.error ("unsupported collation: " ++ n.collate)
  else if n.ctype != "" && !(n.ctype == "C" || n.ctype == "C.UTF-8") then
    Except.error ("unsupported character classification: " ++ n.ctype)
  else if !isSuperUser then
    Except.error "only superuser is allowed to CREATE DATABASE"
  else
    Except.ok ()

/-! ## CREATE USER / ALTER USER row-count handling
(createUserNode.Start lines 344-382, alterUserSetPasswordNode.Start lines 423-445) -/

/-- Outcome of `InternalExecutor.ExecuteStatementInTransaction`: a row count on
success, or an error that either is or is not a uniqueness-constraint
violation (`sqlbase.IsUniquenessConstraintViolationError`). -/
inductive ExecResult
  | success (rowsAffected : Nat)
  | uniquenessViolation
  | otherError (msg : String)
deriving DecidableEq, Repr

/-- `createUserNode.Start` after username/password resolution: the handling of
the internal executor's result.  Returns the node's `rowsAffected`. -/
def createUserStart (ifNotExists : Bool) (r : ExecResult) : Except String Nat :=
  match r with
  | .uniquenessViolation =>
    if ifNotExists then Except.ok 0
    else Except.error "user already exists"
  | .otherError m => Except.error m
  | .success n =>
    if n != 1 then
      Except.error (Nat.repr n ++ " rows affected by user creation; expected exactly one row affected")
    else Except.ok n

/-- `alterUserSetPasswordNode.Start` after username/password resolution: the
handling of the internal executor's result.  Returns the node's
`rowsAffected`. -/
def alterUserSetPasswordStart (ifExists : Bool) (r : ExecResult) : Except String Nat :=
  match r with
  | .success n =>
    if n == 0 && !ifExists then Except.error "user does not exist"
    else Except.ok n
  | .uniquenessViolation => Except.error "uniqueness violation"
  | .otherError m => Except.error m

/-! ## Check-constraint expressions (makeCheckConstraint, create.go lines 1782-1871) -/

/-- A small expression AST for CHECK constraints: column references, integer
literals, binary operators, and the `dummyColumnItem` placeholder that the
visitor substitutes for column references. -/
inductive CkExpr
  | colRef (name : String)
  | intLit (v : Int)
  | bin (op : String) (l r : CkExpr)
  | dummy (typ : Nat)
deriving DecidableEq, Repr

/-- `tree.Serialize` on the embedded expression AST. -/
def serializeCk : CkExpr → String
  | .colRef n => n
  | .intLit v => if v < 0 then "-" ++ Nat.repr v.natAbs else Nat.repr v.natAbs
  | .bin op l r => serializeCk l ++ " " ++ op ++ " " ++ serializeCk r
  | .dummy t => "<dummy " ++ Nat.repr t ++ ">"

/-- The `tree.SimpleVisit` traversal of `makeCheckConstraint`: every column
reference is resolved against the table's active columns (error when absent),
appended to the name buffer, and replaced by a `dummyColumnItem` carrying the
column's datum type.  Returns the substituted expression and the referenced
column names in visit order. -/
def visitCk (desc : TableDescriptor) : CkExpr → Except String (CkExpr × List String)
  | .colRef n =>
    match findColumnByName desc n with
    | none => Except.error ("column " ++ n ++ " not found for constraint")
    | some c => Except.ok (.dummy c.typ.semanticType, [c.name])
  | .intLit v => Except.ok (.intLit v, [])
  | .bin op l r => do
    let lr ← visitCk desc l
    let rr ← visitCk desc r
    Except.ok (.bin op lr.1 rr.1, lr.2 ++ rr.2)
  | .dummy t => Except.ok (.dummy t, [])

/-- `sqlbase.TableDescriptor_CheckConstraint` (name and stored expression). -/
structure CheckConstraint where
  expr : String
  name : String
deriving DecidableEq, Repr

/-- `tree.CheckConstraintTableDef`. -/
structure CheckDef where
  name : String := ""
  expr : CkExpr
deriving DecidableEq, Repr

/-- The suffix-search loop of `makeCheckConstraint`: starting at `i`, return
the first counter whose appended name is not in use.  The Go loop is
unbounded; `fuel` is a termination bound, and `inuse.length + 1` attempts
always suffice (proved below). -/
def findSuffixAux (base : String) (inuse : List String) : Nat → Nat → Nat
  | 0, i => i
  | fuel + 1, i =>
    if (base ++ Nat.repr i) ∈ inuse then findSuffixAux base inuse fuel (i + 1)
    else i

/-- Name uniquification of `makeCheckConstraint`: if the generated name is
already used, append the first numeric suffix (starting at 1) that makes it
unused. -/
def pickCheckName (base : String) (inuse : List String) : String :=
  if base ∈ inuse then base ++ Nat.repr (findSuffixAux base inuse (inuse.length + 1) 1)
  else base

/-- `makeCheckConstraint`: resolves and substitutes column references,
synthesizes a name for unnamed constraints ("check" plus "_col" per referenced
column occurrence, uniquified by numeric suffix, and recorded in
`inuseNames` when that map is present), and stores the serialization of the
original expression.  The external semantic checks
(`AssertNoAggregationOrWindowing`, `SanitizeVarFreeExpr`) validate the
substituted tree and are not modelled.  Returns the constraint and the
updated name map. -/
def makeCheckConstraint (desc : TableDescriptor) (d : CheckDef)
    (inuseNames : Option (List String)) :
    Except String (CheckConstraint × Option (List String)) := do
  let generateName := d.name == ""
  let visited ← visitCk desc d.expr
  if generateName then
    let base := "check" ++ String.join (visited.2.map (fun c => "_" ++ c))
    let name := pickCheckName base (inuseNames.getD [])
    let inuseNames2 := match inuseNames with
      | none => none
      | some l => some (name :: l)
    Except.ok ({ expr := serializeCk d.expr, name := name }, inuseNames2)
  else
    Except.ok ({ expr := serializeCk d.expr, name := d.name }, inuseNames)

/-- The check-constraint pass of `MakeTableDesc`: process the check defs in
order with a shared `generatedNames` map that starts empty. -/
def makeCheckConstraints (desc : TableDescriptor) (ds : List CheckDef) :
    Except String (List CheckConstraint) := do
  let r ← ds.foldlM
    (fun (acc : List CheckConstraint × Option (List String)) d => do
      let (ck, inuse) ← makeCheckConstraint desc d acc.2
      Except.ok (acc.1 ++ [ck], inuse))
    ([], some [])
  Except.ok r.1

/-! ## HoistConstraints (create.go lines 692-720) -/

/-- The inline `REFERENCES` clause of a column (`tree.ColumnTableDef.References`).
The Go zero value (`NormalizableTableName{}`, reported by `HasFKConstraint`)
is modelled as `table = none`. -/
structure ColRefs where
  table : Option String := none
  col : String := ""
  constraintName : String := ""
  onDelete : FKAction := .noAction
  onUpdate : FKAction := .noAction
deriving DecidableEq, Repr

/-- An inline per-column CHECK (`tree.ColumnTableDef.CheckExprs` element). -/
structure ColCheckExpr where
  expr : CkExpr
  constraintName : String := ""
deriving DecidableEq, Repr

/-- A `tree.TableDef` of the CREATE TABLE definition list: column defs (with
their inline constraints), table-level check and foreign-key constraint defs,
and the remaining def kinds (index, unique, family), which `HoistConstraints`
leaves untouched. -/
inductive TableDef
  | column (name : String) (typ : ColumnType) (checkExprs : List ColCheckExpr) (references : ColRefs)
  | checkConstraint (expr : CkExpr) (name : String)
  | foreignKey (table : String) (fromCols toCols : List String) (name : String)
      (onDelete onUpdate : FKAction)
  | other (tag : Nat)
deriving DecidableEq, Repr

/-- The in-place mutation `HoistConstraints` applies to a visited column def:
clear its inline check expressions and its inline `References.Table`. -/
def hoistClearColumn : TableDef → TableDef
  | .column n t _ refs => .column n t [] { refs with table := none }
  | d => d

/-- The table-level defs `HoistConstraints` appends for one visited def: one
check def per inline check expression, then a foreign-key def when the column
has an inline `REFERENCES` clause (target column list empty when no column
was named). -/
def hoistedDefs : TableDef → List TableDef
  | .column name _ checks refs =>
    checks.map (fun ce => TableDef.checkConstraint ce.expr ce.constraintName) ++
      (match refs.table with
       | some tgt =>
         [TableDef.foreignKey tgt [name]
           (if refs.col != "" then [refs.col] else []) refs.constraintName
           refs.onDelete refs.onUpdate]
       | none => [])
  | _ => []

/-- `HoistConstraints`: the Go loop ranges over the original definition list
while appending, so the result is the original defs with columns cleared in
place, followed by the hoisted defs in visit order. -/
def HoistConstraints (defs : List TableDef) : List TableDef :=
  defs.map hoistClearColumn ++ defs.flatMap hoistedDefs

/-! ## Foreign keys (matchesIndex / resolveFK / addIndexForFK,
create.go lines 861-1123) -/

/-- `matchesIndex` (create.go lines 871-884): referencing columns may match a
strict initial segment of an index (`exact = false`), referenced columns must
match it exactly (`exact = true`). -/
def matchesIndex (cols : List ColumnDescriptor) (idx : IndexDescriptor) (exact : Bool) : Bool :=
  if cols.length > idx.columnIDs.length || (exact && cols.length != idx.columnIDs.length) then
    false
  else
    (cols.zip idx.columnIDs).all fun p => p.1.id == p.2

/-- The ids of a column list, in order. -/
def idsOfCols (cols : List ColumnDescriptor) : List Nat :=
  cols.map (fun c => c.id)

/-- Which index of the target table an FK points at: its primary index or the
`i`-th entry of its secondary-index list. -/
inductive TargetIdxLoc
  | primaryLoc
  | secondaryLoc (i : Nat)
deriving DecidableEq, Repr

/-- Position of the first list element satisfying `p` (the break-on-first-hit
loops of `resolveFK`). -/
def firstMatchPos (p : IndexDescriptor → Bool) : List IndexDescriptor → Option Nat
  | [] => none
  | idx :: rest => if p idx then some 0 else (firstMatchPos p rest).map (fun i => i + 1)

/-- The target-index search of `resolveFK` (create.go lines 989-1009): the
primary index on an exact match, otherwise the first unique secondary index
with an exact match, otherwise the "no unique constraint" error. -/
def findTargetIdx (targetCols : List ColumnDescriptor) (target : TableDescriptor)
    (targetTableName : String) : Except String TargetIdxLoc :=
  if matchesIndex targetCols target.primaryIndex true then
    Except.ok .primaryLoc
  else
    match firstMatchPos (fun idx => idx.unique && matchesIndex targetCols idx true) target.indexes with
    | some i => Except.ok (.secondaryLoc i)
    | none =>
      Except.error ("there is no unique constraint matching given keys for referenced table " ++
        targetTableName)

/-- The index id an FK reference records for a target location. -/
def targetIdxID (target : TableDescriptor) : TargetIdxLoc → Nat
  | .primaryLoc => target.primaryIndex.id
  | .secondaryLoc i => ((target.indexes.get? i).map (fun idx => idx.id)).getD 0

/-- Append a back-reference to the `referencedBy` list of the index at a
target location. -/
def updateIdxAt (f : IndexDescriptor → IndexDescriptor) :
    Nat → List IndexDescriptor → List IndexDescriptor
  | _, [] => []
  | 0, x :: xs => f x :: xs
  | n + 1, x :: xs => x :: updateIdxAt f n xs

/-- Append a back-reference on the located target index
(`targetIdx.ReferencedBy = append(...)`, create.go line 1069). -/
def appendReferencedBy (t : TableDescriptor) (loc : TargetIdxLoc)
    (r : ForeignKeyReference) : TableDescriptor :=
  match loc with
  | .primaryLoc =>
    { t with primaryIndex :=
        { t.primaryIndex with referencedBy := t.primaryIndex.referencedBy ++ [r] } }
  | .secondaryLoc i =>
    { t with indexes :=
        updateIdxAt (fun idx => { idx with referencedBy := idx.referencedBy ++ [r] }) i t.indexes }

/-- Modelled from the spec: one step of `sqlbase.AllocateIDs` for a secondary
index (not part of this repository slice) — assign the table's next index id
to an index that has none, and fill an empty `columnIDs` list from
`columnNames` (failing on an unknown column name). -/
def allocateOneIndex (tbl : TableDescriptor) (nextID : Nat) (idx : IndexDescriptor) :
    Except String (Nat × IndexDescriptor) := do
  let p := if idx.id == 0 then (nextID + 1, { idx with id := nextID }) else (nextID, idx)
  let idx2 := p.2
  if idx2.columnIDs.isEmpty && !idx2.columnNames.isEmpty then
    let ids ← mapME (fun n =>
      match findColumnByName tbl n with
      | some c => Except.ok c.id
      | none => Except.error ("index contains unknown column " ++ n)) idx2.columnNames
    Except.ok (p.1, { idx2 with columnIDs := ids })
  else
    Except.ok (p.1, idx2)

/-- Modelled from the spec: `sqlbase.AllocateIDs` — assign stable,
monotonically increasing ids to the secondary indexes (columns and families
already have ids at every call site modelled here). -/
def allocateIDs (tbl : TableDescriptor) : Except String TableDescriptor := do
  let r ← tbl.indexes.foldlM
    (fun (acc : Nat × List IndexDescriptor) idx => do
      let a ← allocateOneIndex tbl acc.1 idx
      Except.ok (a.1, acc.2 ++ [a.2]))
    (tbl.nextIndexID, [])
  Except.ok { tbl with indexes := r.2, nextIndexID := r.1 }

/-- `colNames` (create.go lines 1112-1123): human-readable column list for the
"requires an existing index" error. -/
def colNames (cols : List ColumnDescriptor) : String :=
  "(\"" ++ String.intercalate "\", \"" (cols.map (fun c => c.name)) ++ "\")"

/-- The index descriptor `addIndexForFK` constructs before `AllocateIDs`:
non-unique, all columns ascending, over exactly the source columns, named
`{table}_auto_index_{constraint}`, carrying the FK reference. -/
def autoFKIdx (tbl : TableDescriptor) (srcCols : List ColumnDescriptor)
    (constraintName : String) (ref : ForeignKeyReference) : IndexDescriptor :=
  { name := tbl.name ++ "_auto_index_" ++ constraintName
    columnNames := srcCols.map (fun c => c.name)
    columnDirections := srcCols.map (fun _ => IndexDirection.asc)
    foreignKey := some ref }

/-- `addIndexForFK` (create.go lines 1075-1109): add a non-unique all-ascending
index over the source columns named `{table}_auto_index_{constraint}`,
carrying the FK reference; run `AllocateIDs`; return the updated table and the
new index id.  The Go sanity-check panic when the added index fails to match
becomes an error. -/
def addIndexForFK (tbl : TableDescriptor) (srcCols : List ColumnDescriptor)
    (constraintName : String) (ref : ForeignKeyReference) :
    Except String (TableDescriptor × Nat) := do
  let idx : IndexDescriptor := autoFKIdx tbl srcCols constraintName ref
  let tbl2 := { tbl with indexes := tbl.indexes ++ [idx] }
  let tbl3 ← allocateIDs tbl2
  match tbl3.indexes.getLast? with
  | none => Except.error "no matching index and auto-generated index failed to match"
  | some added =>
    if matchesIndex srcCols added false then Except.ok (tbl3, added.id)
    else Except.error "no matching index and auto-generated index failed to match"

/-- The secondary-index scan of the source side of `resolveFK` (create.go
lines 1043-1055): find the first index the source columns match; error if it
already carries an FK, otherwise set the FK on it.  `none` when no index
matches. -/
def setSrcFK (srcCols : List ColumnDescriptor) (ref : ForeignKeyReference) :
    List IndexDescriptor → Except String (Option (List IndexDescriptor × Nat))
  | [] => Except.ok none
  | idx :: rest =>
    if matchesIndex srcCols idx false then
      if idx.foreignKey.isSome then
        Except.error "columns cannot be used by multiple foreign key constraints"
      else
        Except.ok (some ({ idx with foreignKey := some ref } :: rest, idx.id))
    else do
      match ← setSrcFK srcCols ref rest with
      | some (rest2, n) => Except.ok (some (idx :: rest2, n))
      | none => Except.ok none

/-- The source-index resolution of `resolveFK` (create.go lines 1035-1068):
use the primary index when the source columns match it and it is FK-free;
otherwise scan the secondary indexes; when none matches, fail in
`Unvalidated` mode and auto-create a backing index via `addIndexForFK` in
`Validated` mode.  Returns the updated table and the source index id for the
back-reference. -/
def resolveSrcIdx (tbl : TableDescriptor) (srcCols : List ColumnDescriptor)
    (constraintName : String) (ref : ForeignKeyReference) (mode : Validity) :
    Except String (TableDescriptor × Nat) :=
  if matchesIndex srcCols tbl.primaryIndex false then
    if tbl.primaryIndex.foreignKey.isSome then
      Except.error "columns cannot be used by multiple foreign key constraints"
    else
      Except.ok
        ({ tbl with primaryIndex := { tbl.primaryIndex with foreignKey := some ref } },
          tbl.primaryIndex.id)
  else do
    match ← setSrcFK srcCols ref tbl.indexes with
    | some (indexes2, srcID) => Except.ok ({ tbl with indexes := indexes2 }, srcID)
    | none =>
      if mode == Validity.unvalidated then
        Except.error ("foreign key requires an existing index on columns " ++ colNames srcCols)
      else
        addIndexForFK tbl srcCols constraintName ref

/-- `tree.ForeignKeyConstraintTableDef`. -/
structure FKDef where
  table : String
  fromCols : List String
  toCols : List String := []
  name : String := ""
  onDelete : FKAction := .noAction
  onUpdate : FKAction := .noAction
deriving DecidableEq, Repr

/-- Pairwise semantic-type equality check of `resolveFK` (create.go lines
977-982). -/
def fkTypesMatch (srcCols targetCols : List ColumnDescriptor) : Bool :=
  (srcCols.zip targetCols).all fun p => p.1.typ.semanticType == p.2.typ.semanticType

/-- Replace the saved copy of a touched table in the backrefs map. -/
def storeBackref (backrefs : List TableDescriptor) (t : TableDescriptor) :
    List TableDescriptor :=
  backrefs.map fun b => if b.id == t.id then t else b

/-- `resolveFK` (create.go lines 904-1071).  `catalog` models the descriptors
readable through `getTableDesc` (the table under creation is absent from it);
`backrefs` is the accumulating map of other tables touched, kept as a list of
descriptor copies.  Returns the updated table under creation and the updated
backrefs map. -/
def resolveFK (catalog : List TableDescriptor) (tbl : TableDescriptor) (d : FKDef)
    (backrefs : List TableDescriptor) (mode : Validity) :
    Except String (TableDescriptor × List TableDescriptor) := do
  -- Resolve the target table; a missing name equal to the table being created
  -- is a self-reference.  A found target puts the new table into ADD state
  -- (with a version bump) in Validated mode, and is deduplicated against the
  -- backrefs map unless it is the table itself.
  let r ←
    match catalog.find? (fun t => t.name == d.table) with
    | none =>
      if d.table == tbl.name then Except.ok (true, tbl, backrefs, tbl)
      else Except.error ("referenced table " ++ d.table ++ " not found")
    | some t =>
      let tbl2 := if mode == Validity.validated then
        { tbl with state := .addState, upVersion := true } else tbl
      if t.id == tbl2.id then Except.ok (true, tbl2, backrefs, tbl2)
      else
        match backrefs.find? (fun b => b.id == t.id) with
        | some prev => Except.ok (false, prev, backrefs, tbl2)
        | none => Except.ok (false, t, backrefs ++ [t], tbl2)
  let targetIsSelf := r.1
  let target := r.2.1
  let backrefs := r.2.2.1
  let tbl := r.2.2.2
  let srcCols ← lookupCols tbl d.fromCols
  let targetColNames :=
    if d.toCols.isEmpty then target.primaryIndex.columnNames else d.toCols
  let targetCols ← lookupCols target targetColNames
  if targetCols.length != srcCols.length then
    Except.error (Nat.repr srcCols.length ++ " columns must reference exactly " ++
      Nat.repr srcCols.length ++ " columns in referenced table (found " ++
      Nat.repr targetCols.length ++ ")")
  else if !fkTypesMatch srcCols targetCols then
    Except.error "source and target column types do not match foreign key"
  else do
  let constraintName :=
    if d.name == "" then "fk_" ++ (d.fromCols.headD "") ++ "_ref_" ++ target.name
    else d.name
  let loc ← findTargetIdx targetCols target d.table
  if d.onDelete != FKAction.noAction && d.onDelete != FKAction.restrict then
    Except.error "unsupported: ON DELETE action"
  else if d.onUpdate != FKAction.noAction && d.onUpdate != FKAction.restrict then
    Except.error "unsupported: ON UPDATE action"
  else do
  let ref : ForeignKeyReference :=
    { table := target.id
      index := targetIdxID target loc
      name := constraintName
      sharedPrefixLen := srcCols.length
      onDelete := d.onDelete
      onUpdate := d.onUpdate
      validity := if mode == Validity.unvalidated then .unvalidated else .validated }
  let s ← resolveSrcIdx tbl srcCols constraintName ref mode
  let tbl := s.1
  let backrefEntry : ForeignKeyReference := { table := tbl.id, index := s.2 }
  if targetIsSelf then
    Except.ok (appendReferencedBy tbl loc backrefEntry, backrefs)
  else
    Except.ok (tbl, storeBackref backrefs (appendReferencedBy target loc backrefEntry))

/-! ## The multiple-FK column check of MakeTableDesc (create.go lines 1699-1718) -/

/-- The column count an FK covers in the final check of `MakeTableDesc`: its
`sharedPrefixLen` when positive, else the full column list of its index. -/
def fkNumCols (idx : IndexDescriptor) (fk : ForeignKeyReference) : Nat :=
  if fk.sharedPrefixLen > 0 then fk.sharedPrefixLen else idx.columnIDs.length

/-- The body of the check loop over one FK's column positions: record each
column id, failing when it was already recorded for another FK (the error
names the column). -/
def recordFKCols (seen : List Nat) : List (Nat × String) → Except String (List Nat)
  | [] => Except.ok seen
  | (cid, cn) :: rest =>
    if cid ∈ seen then
      Except.error ("column " ++ cn ++ " cannot be used by multiple foreign key constraints")
    else recordFKCols (cid :: seen) rest

/-- The columns one secondary index contributes to the check, seen at
positions `0 ≤ i < fkNumCols`: the id and name at each position.  The Go
out-of-range panic (only possible when `sharedPrefixLen` exceeds the index
width) becomes an error. -/
def checkFKColsIdx (seen : List Nat) (idx : IndexDescriptor) : Except String (List Nat) :=
  match idx.foreignKey with
  | none => Except.ok seen
  | some fk =>
    let numCols := fkNumCols idx fk
    if numCols > idx.columnIDs.length then Except.error "index out of range"
    else
      recordFKCols seen ((List.range numCols).map fun i =>
        ((idx.columnIDs.get? i).getD 0, (idx.columnNames.get? i).getD ""))

/-- The final FK check of `MakeTableDesc` (create.go lines 1699-1716): walk
`desc.Indexes` — the secondary indexes — and fail when a column is covered by
more than one of their FKs. -/
def checkFKCols (indexes : List IndexDescriptor) : Except String Unit := do
  let _ ← indexes.foldlM checkFKColsIdx ([] : List Nat)
  Except.ok ()

/-- The foreign-key phase of `MakeTableDesc` (fourth pass restricted to FK
defs, lines 1690-1693, followed by the multiple-FK check of lines 1699-1716
and the final `AllocateIDs` of line 1718). -/
def makeTableDescFKPhase (catalog : List TableDescriptor) (tbl : TableDescriptor)
    (fks : List FKDef) : Except String (TableDescriptor × List TableDescriptor) := do
  let r ← fks.foldlM
    (fun (acc : TableDescriptor × List TableDescriptor) d =>
      resolveFK catalog acc.1 d acc.2 Validity.validated)
    (tbl, [])
  checkFKCols r.1.indexes
  let tbl2 ← allocateIDs r.1
  Except.ok (tbl2, r.2)

/-- The columns an FK-carrying index covers, per the counting rule of the
multiple-FK check (`sharedPrefixLen` when positive, else all columns): used to
state which columns are "referenced by" the index's foreign key. -/
def fkCountedCols (idx : IndexDescriptor) : List Nat :=
  match idx.foreignKey with
  | none => []
  | some fk => idx.columnIDs.take (fkNumCols idx fk)

/-! ## Interleaving (addInterleave, create.go lines 1150-1212) -/

/-- `tree.DropBehavior`. -/
inductive DropBehavior
  | dropDefault
  | dropRestrict
  | dropCascade
deriving DecidableEq, Repr

/-- `tree.InterleaveDef` (the parent table is resolved by the caller through
`MustGetTableDesc` and passed in directly). -/
structure InterleaveDef where
  fields : List String
  dropBehavior : DropBehavior := .dropDefault
deriving DecidableEq, Repr

/-- Wrapping `uint32` subtraction, for the running
`intl.SharedPrefixLen -= ancestor.SharedPrefixLen` of `addInterleave`. -/
def sub32 (a b : Nat) : Nat :=
  (a + (2 ^ 32 - b % 2 ^ 32)) % 2 ^ 32

/-- The per-column body of the `addInterleave` check loop (create.go lines
1181-1196), at position `i`: resolve the parent column and the child-index
column, then require equal names with the declared field, equal full types,
and equal directions.  Go's out-of-range slice accesses become errors. -/
def interleaveColCheck (parentTable desc : TableDescriptor)
    (parentIdx index : IndexDescriptor) (fields : List String) (i : Nat) :
    Except String Unit :=
  match parentIdx.columnIDs.get? i with
  | none => Except.error "index out of range"
  | some targetColID =>
    match findColumnByID parentTable targetColID with
    | none => Except.error "parent column not found"
    | some targetCol =>
      match index.columnIDs.get? i with
      | none => Except.error "index out of range"
      | some colID =>
        match findColumnByID desc colID with
        | none => Except.error "column not found"
        | some col =>
          match fields.get? i with
          | none => Except.error "index out of range"
          | some field =>
            if field != col.name then
              Except.error "declared columns must match index being interleaved"
            else
              match index.columnDirections.get? i, parentIdx.columnDirections.get? i with
              | some cd, some pd =>
                if col.typ != targetCol.typ || cd != pd then
                  Except.error "interleaved columns must match parent"
                else Except.ok ()
              | _, _ => Except.error "index out of range"

/-- `addInterleave` (create.go lines 1150-1212): validate the declared fields
against the parent's primary index and the child index, then set the child
index's ancestors to the parent's ancestor list plus a new entry whose
`sharedPrefixLen` is the parent primary-key width minus the prior ancestors'
`sharedPrefixLen` (in `uint32` arithmetic), and put the child table into ADD
state.  Returns the updated table and index. -/
def addInterleave (parentTable : TableDescriptor) (desc : TableDescriptor)
    (index : IndexDescriptor) (interleave : InterleaveDef) :
    Except String (TableDescriptor × IndexDescriptor) := do
  if interleave.dropBehavior != DropBehavior.dropDefault then
    Except.error "unsupported shorthand"
  else do
  let parentIdx := parentTable.primaryIndex
  if interleave.fields.length != parentIdx.columnIDs.length then
    Except.error "interleaved columns must match parent"
  else if interleave.fields.length > index.columnIDs.length then
    Except.error "declared columns must match index being interleaved"
  else do
  forME (interleaveColCheck parentTable desc parentIdx index interleave.fields)
    (List.range parentIdx.columnIDs.length)
  let ancestorList := parentIdx.interleaveAncestors
  let intlSPL := ancestorList.foldl (fun acc a => sub32 acc a.sharedPrefixLen)
    (parentIdx.columnIDs.length % 2 ^ 32)
  let intl : InterleaveAncestor :=
    { tableID := parentTable.id, indexID := parentIdx.id, sharedPrefixLen := intlSPL }
  let index2 := { index with interleaveAncestors := ancestorList ++ [intl] }
  Except.ok ({ desc with state := .addState }, index2)

/-! ## Partition tuples (valueEncodePartitionTuple, create.go lines 1264-1325) -/

/-- `tree.PartitionByType`. -/
inductive PartitionByType
  | list
  | range
deriving DecidableEq, Repr

/-- Partition tuple expressions: parenthesized expressions, tuples, the
`DEFAULT` and `MAXVALUE` specials, placeholders, and typed literals (the
residue of arbitrary constant expressions after external evaluation). -/
inductive PExpr
  | paren (e : PExpr)
  | tuple (es : List PExpr)
  | defaultVal
  | maxVal
  | placeholder (idx : Nat)
  | lit (typ : Nat) (v : Nat)

/-- One token of the table "value" encoding: the reserved NOT NULL tag
(written with `encoding.NoColumnID`, hence carrying no column id) or an
ordinary encoded datum. -/
inductive EncElem
  | notNullTag
  | val (typ : Nat) (v : Nat)
deriving DecidableEq, Repr

/-- `tree.StripParens`. -/
def stripParens : PExpr → PExpr
  | .paren e => stripParens e
  | e => e

/-- Rendering of a partition expression for error messages. -/
def pexprString : PExpr → String
  | .paren _ => "(...)"
  | .tuple _ => "(...)"
  | .defaultVal => "DEFAULT"
  | .maxVal => "MAXVALUE"
  | .placeholder i => "$" ++ Nat.repr (i + 1)
  | .lit _ v => Nat.repr v

/-- Rendering of the partition type for error messages. -/
def partitionTypeString : PartitionByType → String
  | .list => "LIST"
  | .range => "RANGE"

/-- Modelled from the spec: the external `tree.TypeCheck` / `Eval` /
`CheckColumnType` / `EncodeTableValue` pipeline of the default branch, on the
literal residue — a literal passes iff its type tag equals the column's datum
type, and encodes to one ordinary value token. -/
def typeCheckEvalEncode (col : ColumnDescriptor) : PExpr → Except String EncElem
  | .paren e => typeCheckEvalEncode col e
  | .lit t v =>
    if t == col.typ.semanticType then Except.ok (.val t v)
    else Except.error "type check error"
  | _ => Except.error "type check error"

/-- One element of the tuple loop of `valueEncodePartitionTuple` (create.go
lines 1283-1322): `DEFAULT` is legal only under `PARTITION BY LIST` and
`MAXVALUE` only under `PARTITION BY RANGE`, both encoding as the NOT NULL
tag with no column id; placeholders are rejected; anything else goes through
type checking, evaluation, and value encoding against the column. -/
def encodePartElem (typ : PartitionByType) (col : ColumnDescriptor) (e : PExpr) :
    Except String EncElem :=
  match e with
  | .defaultVal =>
    if typ != PartitionByType.list then
      Except.error (pexprString e ++ " cannot be used with PARTITION BY " ++
        partitionTypeString typ)
    else Except.ok .notNullTag
  | .maxVal =>
    if typ != PartitionByType.range then
      Except.error (pexprString e ++ " cannot be used with PARTITION BY " ++
        partitionTypeString typ)
    else Except.ok .notNullTag
  | .placeholder _ => Except.error "placeholders are not supported in PARTITION BY"
  | e2 => typeCheckEvalEncode col e2

/-- `valueEncodePartitionTuple` (create.go lines 1264-1325): strip parentheses,
promote a non-tuple to a 1-tuple, require the tuple arity to equal the number
of partition columns, and encode each element against its column, the encoded
byte string abstracted as the list of its tokens. -/
def valueEncodePartitionTuple (typ : PartitionByType) (maybeTuple : PExpr)
    (cols : List ColumnDescriptor) : Except String (List EncElem) :=
  let stripped := stripParens maybeTuple
  let es := match stripped with
    | .tuple es => es
    | e => [e]
  if es.length != cols.length then
    Except.error ("partition has " ++ Nat.repr cols.length ++ " columns but " ++
      Nat.repr es.length ++ " values were supplied")
  else
    mapME (fun p => encodePartElem typ p.2 p.1) (es.zip cols)

/-! ## CREATE INDEX execution (createIndexNode.Start, create.go lines 153-230) -/

/-- `tree.CreateIndex` (the fields `Start` reads; partitioning and
interleaving are not modelled — the claims below never reach them). -/
structure CreateIndexStmt where
  name : String
  unique : Bool := false
  columns : List (String × IndexDirection) := []
  storing : List String := []
  ifNotExists : Bool := false
deriving DecidableEq, Repr

/-- Modelled from the spec: `sqlbase.(*TableDescriptor).FindIndexByName` (not
part of this repository slice) — find an index by name among the primary
index, the secondary indexes, and the pending mutations, reporting whether it
is being dropped. -/
def findIndexByName (tbl : TableDescriptor) (name : String) :
    Option (IndexDescriptor × Bool) :=
  if tbl.primaryIndex.name == name then some (tbl.primaryIndex, false)
  else
    match tbl.indexes.find? (fun idx => idx.name == name) with
    | some idx => some (idx, false)
    | none =>
      (tbl.mutations.findSome? fun m =>
        match m.index with
        | some idx => if idx.name == name then some (idx, m.direction == .drop) else none
        | none => none)

/-- An entry of the structured event log. -/
structure EventRecord where
  eventType : String
  targetID : Nat
  info : String
deriving DecidableEq, Repr

/-- The state `createIndexNode.Start` can touch: the table descriptor, the
schema-change job table with its mutation-id counter, the persisted
descriptors, the event log, and the schema-changer notifications. -/
structure SchemaState where
  tbl : TableDescriptor
  nextMutationID : Nat := 1
  jobs : List (Nat × String) := []
  writtenTables : List TableDescriptor := []
  events : List EventRecord := []
  notified : List (Nat × Nat) := []
deriving DecidableEq, Repr

/-- The index-creation work of `createIndexNode.Start` past the early-return
checks (create.go lines 164-229): build the index descriptor, append an ADD
mutation (`AddIndexMutation`, modelled from the spec), allocate ids, record a
schema-change job with a fresh mutation id, write the descriptor, insert the
event-log record, and notify the schema changer. -/
def createIndexWork (n : CreateIndexStmt) (st : SchemaState) : Except String SchemaState := do
  let indexDesc : IndexDescriptor :=
    { name := n.name
      unique := n.unique
      storeColumnNames := n.storing
      columnNames := n.columns.map (fun c => c.1)
      columnDirections := n.columns.map (fun c => c.2) }
  let tbl := { st.tbl with
    mutations := st.tbl.mutations ++
      [{ index := some indexDesc, direction := .add, mutationID := st.nextMutationID }] }
  let tbl ← allocateIDs tbl
  let mutationID := st.nextMutationID
  Except.ok { st with
    tbl := tbl
    nextMutationID := mutationID + 1
    jobs := st.jobs ++ [(mutationID, "CREATE INDEX " ++ n.name)]
    writtenTables := st.writtenTables ++ [tbl]
    events := st.events ++ [{ eventType := "create_index", targetID := tbl.id, info := n.name }]
    notified := st.notified ++ [(tbl.id, mutationID)] }

/-- `createIndexNode.Start` (create.go lines 153-230): when the name already
denotes an index, fail if that index is being dropped, return immediately
with no effect under `IF NOT EXISTS`, and otherwise fall through to the
creation work. -/
def createIndexStart (n : CreateIndexStmt) (st : SchemaState) : Except String SchemaState :=
  match findIndexByName st.tbl n.name with
  | some r =>
    if r.2 then Except.error ("index " ++ n.name ++ " being dropped, try again later")
    else if n.ifNotExists then Except.ok st
    else createIndexWork n st
  | none => createIndexWork n st

/-! ## Concrete descriptors (small worked examples used below) -/

/-- Column `a INT` with id 1. -/
def colA : ColumnDescriptor := { id := 1, name := "a", typ := { semanticType := 0 } }

/-- Column `b INT` with id 2. -/
def colB : ColumnDescriptor := { id := 2, name := "b", typ := { semanticType := 0 } }

/-- A table `t (a INT, b INT, PRIMARY KEY (a, b))` as built before the FK
pass. -/
def tblT : TableDescriptor where
  id := 10
  name := "t"
  columns := [colA, colB]
  primaryIndex :=
    { id := 1
      name := "primary"
      unique := true
      columnIDs := [1, 2]
      columnNames := ["a", "b"]
      columnDirections := [.asc, .asc] }
  nextIndexID := 2

/-- A referenced table `p1 (x INT, y INT, PRIMARY KEY (x, y))`. -/
def tblP1 : TableDescriptor where
  id := 2
  name := "p1"
  columns := [{ id := 1, name := "x", typ := { semanticType := 0 } },
    { id := 2, name := "y", typ := { semanticType := 0 } }]
  primaryIndex :=
    { id := 1
      name := "primary"
      unique := true
      columnIDs := [1, 2]
      columnNames := ["x", "y"]
      columnDirections := [.asc, .asc] }
  nextIndexID := 2

/-- A referenced table `p2 (z INT PRIMARY KEY)`. -/
def tblP2 : TableDescriptor where
  id := 3
  name := "p2"
  columns := [{ id := 1, name := "z", typ := { semanticType := 0 } }]
  primaryIndex :=
    { id := 1
      name := "primary"
      unique := true
      columnIDs := [1]
      columnNames := ["z"]
      columnDirections := [.asc] }
  nextIndexID := 2

/-- The FK defs of
`t (..., FOREIGN KEY (a, b) REFERENCES p1, FOREIGN KEY (b) REFERENCES p2)`. -/
def fkDefsT : List FKDef :=
  [{ table := "p1", fromCols := ["a", "b"], name := "fk1" },
   { table := "p2", fromCols := ["b"], name := "fk2" }]

/-- A parent table `parent (pid INT PRIMARY KEY)` for interleaving. -/
def tblParent : TableDescriptor where
  id := 20
  name := "parent"
  columns := [{ id := 1, name := "pid", typ := { semanticType := 0 } }]
  primaryIndex :=
    { id := 1
      name := "primary"
      unique := true
      columnIDs := [1]
      columnNames := ["pid"]
      columnDirections := [.asc] }
  nextIndexID := 2

/-- A child table `child (pid INT, cid INT, PRIMARY KEY (pid, cid))`. -/
def tblChild : TableDescriptor where
  id := 21
  name := "child"
  columns := [{ id := 1, name := "pid", typ := { semanticType := 0 } },
    { id := 2, name := "cid", typ := { semanticType := 0 } }]
  primaryIndex :=
    { id := 1
      name := "primary"
      unique := true
      columnIDs := [1, 2]
      columnNames := ["pid", "cid"]
      columnDirections := [.asc, .asc] }
  nextIndexID := 2

/-- A table carrying a secondary index named `idx`, for the CREATE INDEX
IF NOT EXISTS example. -/
def tblWithIdx : TableDescriptor where
  id := 30
  name := "u"
  columns := [colA, colB]
  primaryIndex :=
    { id := 1
      name := "primary"
      unique := true
      columnIDs := [1]
      columnNames := ["a"]
      columnDirections := [.asc] }
  indexes := [{ id := 2, name := "idx", columnIDs := [2], columnNames := ["b"], columnDirections := [.asc] }]
  nextIndexID := 3

/-- A schema-change state holding `tblWithIdx` plus some history. -/
def stWithIdx : SchemaState where
  tbl := tblWithIdx
  nextMutationID := 7
  jobs := [(1, "old job")]
  writtenTables := [tblWithIdx]
  events := [{ eventType := "create_table", targetID := 30, info := "u" }]
  notified := [(30, 1)]

/-- `CREATE INDEX idx ON u (b) IF NOT EXISTS`. -/
def stmtIdxINE : CreateIndexStmt where
  name := "idx"
  columns := [("b", .asc)]
  ifNotExists := true

/-- The auto-created FK backing index over column `b` from the two-FK
example, as `resolveFK` produces it. -/
def idxAutoB : IndexDescriptor where
  id := 2
  name := "t_auto_index_fk2"
  columnIDs := [2]
  columnNames := ["b"]
  columnDirections := [.asc]
  foreignKey := some { table := 3, index := 1, name := "fk2", sharedPrefixLen := 1 }

/-! # Theorems

General-purpose lemmas first, then one theorem per claim (with witnesses and
counterexamples where applicable). -/

theorem map_id_of_fixed {α : Type} (f : α → α) :
    ∀ l : List α, (∀ x ∈ l, f x = x) → l.map f = l := by
  intro l h
  induction l with
  | nil => rfl
  | cons x xs ih =>
    simp only [List.map_cons]
    rw [h x (by simp), ih (fun y hy => h y (by simp [hy]))]

theorem flatMap_nil_of_fixed {α β : Type} (f : α → List β) :
    ∀ l : List α, (∀ x ∈ l, f x = []) → l.flatMap f = [] := by
  intro l h
  induction l with
  | nil => rfl
  | cons x xs ih =>
    rw [List.flatMap_cons, h x (by simp), ih (fun y hy => h y (by simp [hy]))]
    rfl

theorem hoistClearColumn_idem (d : TableDef) :
    hoistClearColumn (hoistClearColumn d) = hoistClearColumn d := by
  cases d <;> rfl

theorem hoistedDefs_of_cleared (d : TableDef) :
    hoistedDefs (hoistClearColumn d) = [] := by
  cases d <;> rfl

theorem mem_hoistedDefs_fixed (d e : TableDef) (h : e ∈ hoistedDefs d) :
    hoistClearColumn e = e ∧ hoistedDefs e = [] := by
  cases d with
  | column n t checks refs =>
    simp only [hoistedDefs] at h
    rcases List.mem_append.mp h with h1 | h2
    · obtain ⟨ce, _, heq⟩ := List.mem_map.mp h1
      rw [← heq]
      exact ⟨rfl, rfl⟩
    · cases hrt : refs.table with
      | none => rw [hrt] at h2; simp at h2
      | some tgt =>
        rw [hrt] at h2
        simp only [List.mem_singleton] at h2
        rw [h2]
        exact ⟨rfl, rfl⟩
  | checkConstraint e n => simp [hoistedDefs] at h
  | foreignKey a b c d2 e2 f2 => simp [hoistedDefs] at h
  | other t => simp [hoistedDefs] at h

/-- C9: `HoistConstraints` is idempotent — a second run leaves the definition
list unchanged, because the first run empties every column's inline
check-expression list and clears every column's inline `References.Table`. -/
theorem hoistConstraints_idempotent (defs : List TableDef) :
    HoistConstraints (HoistConstraints defs) = HoistConstraints defs := by
  unfold HoistConstraints
  rw [List.map_append, List.flatMap_append, List.map_map]
  have h1 : defs.map (hoistClearColumn ∘ hoistClearColumn) = defs.map hoistClearColumn := by
    rw [← List.map_map]
    apply map_id_of_fixed
    intro x hx
    obtain ⟨y, _, heq⟩ := List.mem_map.mp hx
    rw [← heq, hoistClearColumn_idem]
  have h2 : (defs.flatMap hoistedDefs).map hoistClearColumn = defs.flatMap hoistedDefs := by
    apply map_id_of_fixed
    intro x hx
    obtain ⟨y, _, hy⟩ := List.mem_flatMap.mp hx
    exact (mem_hoistedDefs_fixed y x hy).1
  have h3 : (defs.map hoistClearColumn).flatMap hoistedDefs = [] := by
    apply flatMap_nil_of_fixed
    intro x hx
    obtain ⟨y, _, heq⟩ := List.mem_map.mp hx
    rw [← heq, hoistedDefs_of_cleared]
  have h4 : (defs.flatMap hoistedDefs).flatMap hoistedDefs = [] := by
    apply flatMap_nil_of_fixed
    intro x hx
    obtain ⟨y, _, hy⟩ := List.mem_flatMap.mp hx
    exact (mem_hoistedDefs_fixed y x hy).2
  rw [h1, h2, h3, h4]
  simp

/-- C8: the CREATE DATABASE planner rejects an empty name, any template other
than (case-insensitively) template0, any encoding other than a UTF-8 alias,
any collate or ctype other than C or C.UTF-8, and any non-superuser caller;
it produces a plan node exactly when every provided option passes and the
caller is the superuser.  In particular ENCODING = UTF-8 is accepted and
ENCODING = LATIN1 is rejected with "unsupported encoding: LATIN1". -/
theorem createDatabase_option_validation :
    (∀ su n, CreateDatabase su n = Except.ok () ↔
      (n.name ≠ "" ∧
       (n.template = "" ∨ equalFold n.template "template0" = true) ∧
       (n.encoding = "" ∨ equalFold n.encoding "UTF8" = true ∨
         equalFold n.encoding "UTF-8" = true ∨ equalFold n.encoding "UNICODE" = true) ∧
       (n.collate = "" ∨ n.collate = "C" ∨ n.collate = "C.UTF-8") ∧
       (n.ctype = "" ∨ n.ctype = "C" ∨ n.ctype = "C.UTF-8") ∧
       su = true)) ∧
    CreateDatabase true { name := "db1", encoding := "LATIN1" } =
      Except.error "unsupported encoding: LATIN1" ∧
    CreateDatabase true { name := "db1", encoding := "UTF-8" } = Except.ok () := by
  refine ⟨?_, by decide, by decide⟩
  intro su n
  constructor
  · intro h
    unfold CreateDatabase at h
    have h1 : (n.name == "") = false := by
      cases hc : n.name == "" with
      | true => rw [hc] at h; simp at h
      | false => rfl
    rw [h1] at h
    simp only [Bool.false_eq_true, if_false] at h
    have h2 : (n.template != "" && !equalFold n.template "template0") = false := by
      cases hc : n.template != "" && !equalFold n.template "template0" with
      | true => rw [hc] at h; simp at h
      | false => rfl
    rw [h2] at h
    simp only [Bool.false_eq_true, if_false] at h
    have h3 : (n.encoding != "" &&
        !(equalFold n.encoding "UTF8" || equalFold n.encoding "UTF-8" ||
          equalFold n.encoding "UNICODE")) = false := by
      cases hc : n.encoding != "" &&
          !(equalFold n.encoding "UTF8" || equalFold n.encoding "UTF-8" ||
            equalFold n.encoding "UNICODE") with
      | true => rw [hc] at h; simp at h
      | false => rfl
    rw [h3] at h
    simp only [Bool.false_eq_true, if_false] at h
    have h4 : (n.collate != "" && !(n.collate == "C" || n.collate == "C.UTF-8")) = false := by
      cases hc : n.collate != "" && !(n.collate == "C" || n.collate == "C.UTF-8") with
      | true => rw [hc] at h; simp at h
      | false => rfl
    rw [h4] at h
    simp only [Bool.false_eq_true, if_false] at h
    have h5 : (n.ctype != "" && !(n.ctype == "C" || n.ctype == "C.UTF-8")) = false := by
      cases hc : n.ctype != "" && !(n.ctype == "C" || n.ctype == "C.UTF-8") with
      | true => rw [hc] at h; simp at h
      | false => rfl
    rw [h5] at h
    simp only [Bool.false_eq_true, if_false] at h
    have h6 : su = true := by
      cases hc : su with
      | false => rw [hc] at h; simp at h
      | true => rfl
    refine ⟨beq_eq_false_iff_ne.mp h1, ?_, ?_, ?_, ?_, h6⟩
    · rcases Bool.and_eq_false_iff.mp h2 with hb | hb
      · left; simpa [bne] using hb
      · right; simpa using hb
    · rcases Bool.and_eq_false_iff.mp h3 with hb | hb
      · left; simpa [bne] using hb
      · right
        have h' := hb
        simp at h'
        cases hx : equalFold n.encoding "UTF8" with
        | true => exact Or.inl rfl
        | false =>
          cases hy : equalFold n.encoding "UTF-8" with
          | true => exact Or.inr (Or.inl rfl)
          | false => exact Or.inr (Or.inr (h' hx hy))
    · rcases Bool.and_eq_false_iff.mp h4 with hb | hb
      · left; simpa [bne] using hb
      · right
        have h' := hb
        simp at h'
        by_cases hc : n.collate = "C"
        · exact Or.inl hc
        · exact Or.inr (h' hc)
    · rcases Bool.and_eq_false_iff.mp h5 with hb | hb
      · left; simpa [bne] using hb
      · right
        have h' := hb
        simp at h'
        by_cases hc : n.ctype = "C"
        · exact Or.inl hc
        · exact Or.inr (h' hc)
  · rintro ⟨r1, r2, r3, r4, r5, rfl⟩
    have g1 : (n.name == "") = false := beq_eq_false_iff_ne.mpr r1
    have g2 : (n.template != "" && !equalFold n.template "template0") = false := by
      rcases r2 with r | r <;> simp [r]
    have g3 : (n.encoding != "" &&
        !(equalFold n.encoding "UTF8" || equalFold n.encoding "UTF-8" ||
          equalFold n.encoding "UNICODE")) = false := by
      rcases r3 with r | r | r | r <;> simp [r]
    have g4 : (n.collate != "" && !(n.collate == "C" || n.collate == "C.UTF-8")) = false := by
      rcases r4 with r | r | r <;> simp [r]
    have g5 : (n.ctype != "" && !(n.ctype == "C" || n.ctype == "C.UTF-8")) = false := by
      rcases r5 with r | r | r <;> simp [r]
    unfold CreateDatabase
    rw [g1, g2, g3, g4, g5]
    simp

/-- C6 counterexample: with no IF EXISTS, an internal-executor success
reporting 2 affected rows makes `alterUserSetPasswordNode.Start` succeed —
ALTER USER ... WITH PASSWORD does not enforce `rows_affected == 1`, so the
claim that both statements reject any count other than one fails. -/
theorem alterUser_rowsAffected_two_accepted :
    alterUserSetPasswordStart false (ExecResult.success 2) = Except.ok 2 ∧ (2 : Nat) ≠ 1 :=
  ⟨rfl, by decide⟩

/-- C6 (amended): only CREATE USER enforces `rows_affected == 1` on
internal-executor success; ALTER USER ... WITH PASSWORD merely rejects zero
rows when IF EXISTS is absent, and accepts every other row count (and zero
with IF EXISTS) unchecked. -/
theorem user_rowsAffected_enforcement :
    (∀ b n, n ≠ 1 → createUserStart b (ExecResult.success n) =
      Except.error (Nat.repr n ++
        " rows affected by user creation; expected exactly one row affected")) ∧
    (∀ b, createUserStart b (ExecResult.success 1) = Except.ok 1) ∧
    (∀ n, alterUserSetPasswordStart true (ExecResult.success n) = Except.ok n) ∧
    (∀ n, n ≠ 0 → alterUserSetPasswordStart false (ExecResult.success n) = Except.ok n) ∧
    alterUserSetPasswordStart false (ExecResult.success 0) =
      Except.error "user does not exist" := by
  refine ⟨?_, ?_, ?_, ?_, rfl⟩
  · intro b n hn
    unfold createUserStart
    simp [hn]
  · intro b
    rfl
  · intro n
    unfold alterUserSetPasswordStart
    simp
  · intro n hn
    unfold alterUserSetPasswordStart
    simp [hn]

/-- C10: a CREATE INDEX with IF NOT EXISTS whose name already denotes a
non-dropped index returns success immediately with the state unchanged — no
mutation, no job or mutation id, no descriptor write, no event-log record,
and no schema-changer notification. -/
theorem createIndex_ifNotExists_noop (n : CreateIndexStmt) (st : SchemaState)
    (idx : IndexDescriptor)
    (hfound : findIndexByName st.tbl n.name = some (idx, false))
    (hine : n.ifNotExists = true) :
    createIndexStart n st = Except.ok st := by
  unfold createIndexStart
  rw [hfound]
  simp [hine]

/-- The IF NOT EXISTS no-op at a concrete state: table `u` already has index
`idx`, and `CREATE INDEX idx ... IF NOT EXISTS` leaves the state intact. -/
theorem createIndex_ifNotExists_noop_witness :
    findIndexByName stWithIdx.tbl stmtIdxINE.name =
      some ({ id := 2, name := "idx", columnIDs := [2], columnNames := ["b"], columnDirections := [.asc] }, false) ∧
    stmtIdxINE.ifNotExists = true ∧
    createIndexStart stmtIdxINE stWithIdx = Except.ok stWithIdx :=
  ⟨by decide, rfl,
    createIndex_ifNotExists_noop stmtIdxINE stWithIdx
      { id := 2, name := "idx", columnIDs := [2], columnNames := ["b"], columnDirections := [.asc] }
      (by decide) rfl⟩

/-- C5 counterexample: on
`CREATE TABLE t (a INT, b INT, PRIMARY KEY (a, b), FOREIGN KEY (a, b)
REFERENCES p1, FOREIGN KEY (b) REFERENCES p2)` the FK phase of
`MakeTableDesc` succeeds even though column `b` (id 2) is covered by two
foreign keys: the first FK lands on the primary index (covering a and b via
`shared_prefix_len = 2`), the second on the auto-created secondary index over
b — the final check only walks `desc.Indexes` and never counts the primary
index's FK. -/
theorem makeTableDesc_multiFK_shared_column_accepted :
    ((makeTableDescFKPhase [tblP1, tblP2] tblT fkDefsT).toOption.map
      (fun r => (fkCountedCols r.1.primaryIndex).contains 2 &&
        r.1.indexes.any (fun idx => (fkCountedCols idx).contains 2))) = some true := by
  decide

theorem zip_all_ids_iff : ∀ (cols : List ColumnDescriptor) (ids : List Nat),
    cols.length = ids.length →
    (((cols.zip ids).all fun p => p.1.id == p.2) = true ↔ ids = idsOfCols cols) := by
  intro cols
  induction cols with
  | nil =>
    intro ids h
    cases ids with
    | nil => simp [idsOfCols]
    | cons i is => simp at h
  | cons c cs ih =>
    intro ids h
    cases ids with
    | nil => simp at h
    | cons i is =>
      simp only [List.zip_cons_cons, List.all_cons, Bool.and_eq_true, beq_iff_eq, idsOfCols,
        List.map_cons, List.cons.injEq]
      have hlen : cs.length = is.length := by simpa using h
      have ihis := ih is hlen
      simp only [idsOfCols] at ihis
      rw [ihis]
      constructor
      · rintro ⟨h1, h2⟩; exact ⟨h1.symm, h2⟩
      · rintro ⟨h1, h2⟩; exact ⟨h1.symm, h2⟩

theorem matchesIndex_exact_iff (cols : List ColumnDescriptor) (idx : IndexDescriptor) :
    (matchesIndex cols idx true = true) ↔ idx.columnIDs = idsOfCols cols := by
  unfold matchesIndex
  by_cases hlen : cols.length = idx.columnIDs.length
  · have hg : (decide (cols.length > idx.columnIDs.length) ||
        (true && cols.length != idx.columnIDs.length)) = false := by
      simp [hlen]
    rw [hg]
    simpa using zip_all_ids_iff cols idx.columnIDs hlen
  · have hg : (decide (cols.length > idx.columnIDs.length) ||
        (true && cols.length != idx.columnIDs.length)) = true := by
      simp [bne_iff_ne]
      omega
    rw [hg]
    simp only [if_true]
    constructor
    · intro hc; exact absurd hc (by simp)
    · intro hc
      exfalso
      apply hlen
      rw [hc]
      simp [idsOfCols]

theorem zip_all_ids_of_take : ∀ (cols : List ColumnDescriptor) (ids : List Nat),
    cols.length ≤ ids.length →
    (((cols.zip ids).all fun p => p.1.id == p.2) = true ↔
      ids.take cols.length = idsOfCols cols) := by
  intro cols
  induction cols with
  | nil =>
    intro ids h
    simp [idsOfCols]
  | cons c cs ih =>
    intro ids h
    cases ids with
    | nil => simp at h
    | cons i is =>
      simp only [List.zip_cons_cons, List.all_cons, Bool.and_eq_true, beq_iff_eq, idsOfCols,
        List.map_cons, List.length_cons, List.take_succ_cons, List.cons.injEq]
      have hlen : cs.length ≤ is.length := by simpa using h
      have ihis := ih is hlen
      simp only [idsOfCols] at ihis
      rw [ihis]
      constructor
      · rintro ⟨h1, h2⟩; exact ⟨h1.symm, h2⟩
      · rintro ⟨h1, h2⟩; exact ⟨h1.symm, h2⟩

theorem matchesIndex_prefix_iff (cols : List ColumnDescriptor) (idx : IndexDescriptor) :
    (matchesIndex cols idx false = true) ↔
      (cols.length ≤ idx.columnIDs.length ∧
        idx.columnIDs.take cols.length = idsOfCols cols) := by
  unfold matchesIndex
  by_cases hlen : cols.length ≤ idx.columnIDs.length
  · have hg : (decide (cols.length > idx.columnIDs.length) ||
        (false && cols.length != idx.columnIDs.length)) = false := by
      simp
      omega
    rw [hg]
    simp only [Bool.false_eq_true, if_false]
    rw [zip_all_ids_of_take cols idx.columnIDs hlen]
    exact ⟨fun h2 => ⟨hlen, h2⟩, fun h2 => h2.2⟩
  · have hg : (decide (cols.length > idx.columnIDs.length) ||
        (false && cols.length != idx.columnIDs.length)) = true := by
      simp
      omega
    rw [hg]
    simp only [if_true]
    constructor
    · intro hc; exact absurd hc (by simp)
    · intro hc; exact absurd hc.1 hlen

theorem firstMatchPos_eq_some (p : IndexDescriptor → Bool) :
    ∀ (l : List IndexDescriptor) (i : Nat) (idx : IndexDescriptor),
      l.get? i = some idx → p idx = true →
      (∀ j jdx, j < i → l.get? j = some jdx → p jdx = false) →
      firstMatchPos p l = some i := by
  intro l
  induction l with
  | nil => intro i idx h; simp at h
  | cons x xs ih =>
    intro i idx hget hp hmin
    cases i with
    | zero =>
      simp only [List.get?_cons_zero, Option.some.injEq] at hget
      subst hget
      simp [firstMatchPos, hp]
    | succ n =>
      have hx : p x = false := hmin 0 x (Nat.succ_pos n) rfl
      simp only [firstMatchPos, hx, Bool.false_eq_true, if_false]
      rw [ih n idx (by simpa using hget) hp
        (fun j jdx hj hjget => hmin (j + 1) jdx (Nat.succ_lt_succ hj) (by simpa using hjget))]
      rfl

theorem firstMatchPos_eq_none (p : IndexDescriptor → Bool) :
    ∀ l : List IndexDescriptor, (∀ idx ∈ l, p idx = false) → firstMatchPos p l = none := by
  intro l
  induction l with
  | nil => intro _; rfl
  | cons x xs ih =>
    intro h
    have hx : p x = false := h x (by simp)
    simp only [firstMatchPos, hx, Bool.false_eq_true, if_false]
    rw [ih (fun idx hidx => h idx (by simp [hidx]))]
    rfl

/-- C1: the target-index search of `resolveFK` demands a unique, exact-length
column match — the primary index when its column-id list equals the
referenced columns exactly, else the first unique secondary index (in
declaration order) matching exactly, else the "no unique constraint matching
given keys" error; a mere initial-segment (prefix) match on any target index
is never a candidate, so the error stands even when such matches exist. -/
theorem fk_target_index_selection (targetCols : List ColumnDescriptor)
    (target : TableDescriptor) (tname : String) :
    (target.primaryIndex.columnIDs = idsOfCols targetCols →
      findTargetIdx targetCols target tname = Except.ok TargetIdxLoc.primaryLoc) ∧
    (target.primaryIndex.columnIDs ≠ idsOfCols targetCols →
      ∀ i idx, target.indexes.get? i = some idx → idx.unique = true →
        idx.columnIDs = idsOfCols targetCols →
        (∀ j jdx, j < i → target.indexes.get? j = some jdx →
          ¬(jdx.unique = true ∧ jdx.columnIDs = idsOfCols targetCols)) →
        findTargetIdx targetCols target tname = Except.ok (TargetIdxLoc.secondaryLoc i)) ∧
    (target.primaryIndex.columnIDs ≠ idsOfCols targetCols →
      (∀ idx ∈ target.indexes, ¬(idx.unique = true ∧ idx.columnIDs = idsOfCols targetCols)) →
      findTargetIdx targetCols target tname =
        Except.error
          ("there is no unique constraint matching given keys for referenced table " ++ tname)) ∧
    (target.primaryIndex.columnIDs ≠ idsOfCols targetCols →
      (∀ idx ∈ target.indexes, ¬(idx.unique = true ∧ idx.columnIDs = idsOfCols targetCols)) →
      (matchesIndex targetCols target.primaryIndex false = true ∨
        ∃ idx ∈ target.indexes, matchesIndex targetCols idx false = true) →
      ∀ loc, findTargetIdx targetCols target tname ≠ Except.ok loc) := by
  have hpredFalse : ∀ idx : IndexDescriptor,
      ¬(idx.unique = true ∧ idx.columnIDs = idsOfCols targetCols) →
      (idx.unique && matchesIndex targetCols idx true) = false := by
    intro idx hn
    cases hu : idx.unique with
    | false => simp
    | true =>
      simp only [Bool.true_and]
      cases hm : matchesIndex targetCols idx true with
      | false => rfl
      | true => exact absurd ⟨hu, (matchesIndex_exact_iff targetCols idx).mp hm⟩ hn
  refine ⟨?_, ?_, ?_, ?_⟩
  · intro h
    unfold findTargetIdx
    rw [show matchesIndex targetCols target.primaryIndex true = true from
      (matchesIndex_exact_iff targetCols target.primaryIndex).mpr h]
    rfl
  · intro hne i idx hget hu hcols hmin
    unfold findTargetIdx
    have hm : matchesIndex targetCols target.primaryIndex true = false := by
      cases hc : matchesIndex targetCols target.primaryIndex true with
      | false => rfl
      | true => exact absurd ((matchesIndex_exact_iff _ _).mp hc) hne
    rw [hm]
    simp only [Bool.false_eq_true, if_false]
    rw [firstMatchPos_eq_some _ target.indexes i idx hget
      (by rw [hu, Bool.true_and]; exact (matchesIndex_exact_iff targetCols idx).mpr hcols)
      (fun j jdx hj hjget => hpredFalse jdx (hmin j jdx hj hjget))]
  · intro hne hall
    unfold findTargetIdx
    have hm : matchesIndex targetCols target.primaryIndex true = false := by
      cases hc : matchesIndex targetCols target.primaryIndex true with
      | false => rfl
      | true => exact absurd ((matchesIndex_exact_iff _ _).mp hc) hne
    rw [hm]
    simp only [Bool.false_eq_true, if_false]
    rw [firstMatchPos_eq_none _ target.indexes
      (fun idx hidx => hpredFalse idx (hall idx hidx))]
  · intro hne hall _ loc
    unfold findTargetIdx
    have hm : matchesIndex targetCols target.primaryIndex true = false := by
      cases hc : matchesIndex targetCols target.primaryIndex true with
      | false => rfl
      | true => exact absurd ((matchesIndex_exact_iff _ _).mp hc) hne
    rw [hm]
    simp only [Bool.false_eq_true, if_false]
    rw [firstMatchPos_eq_none _ target.indexes
      (fun idx hidx => hpredFalse idx (hall idx hidx))]
    simp

theorem ok_bind {α β : Type} (x : α) (f : α → Except String β) :
    (Except.ok x >>= f) = f x := rfl

theorem setSrcFK_eq_none (srcCols : List ColumnDescriptor) (ref : ForeignKeyReference) :
    ∀ l : List IndexDescriptor, (∀ idx ∈ l, matchesIndex srcCols idx false = false) →
      setSrcFK srcCols ref l = Except.ok none := by
  intro l
  induction l with
  | nil => intro _; rfl
  | cons x xs ih =>
    intro h
    have hx : matchesIndex srcCols x false = false := h x (by simp)
    unfold setSrcFK
    rw [hx]
    simp only [Bool.false_eq_true, if_false]
    rw [ih (fun idx hidx => h idx (by simp [hidx]))]
    rfl

theorem setSrcFK_first (srcCols : List ColumnDescriptor) (ref : ForeignKeyReference) :
    ∀ (l : List IndexDescriptor) (i : Nat) (idx : IndexDescriptor),
      l.get? i = some idx → matchesIndex srcCols idx false = true →
      idx.foreignKey = none →
      (∀ j jdx, j < i → l.get? j = some jdx → matchesIndex srcCols jdx false = false) →
      setSrcFK srcCols ref l =
        Except.ok (some
          (updateIdxAt (fun x => { x with foreignKey := some ref }) i l, idx.id)) := by
  intro l
  induction l with
  | nil => intro i idx h; simp at h
  | cons x xs ih =>
    intro i idx hget hm hfk hmin
    cases i with
    | zero =>
      simp only [List.get?_cons_zero, Option.some.injEq] at hget
      subst hget
      unfold setSrcFK
      rw [hm]
      simp only [if_true, hfk, Option.isSome_none, Bool.false_eq_true, if_false]
      rfl
    | succ n =>
      have hx : matchesIndex srcCols x false = false := hmin 0 x (Nat.succ_pos n) rfl
      unfold setSrcFK
      rw [hx]
      simp only [Bool.false_eq_true, if_false]
      rw [ih n idx (by simpa using hget) hm hfk
        (fun j jdx hj hjget => hmin (j + 1) jdx (Nat.succ_lt_succ hj) (by simpa using hjget))]
      rfl

theorem mapME_colIDs (tbl : TableDescriptor) :
    ∀ srcCols : List ColumnDescriptor,
      (∀ c ∈ srcCols, findColumnByName tbl c.name = some c) →
      mapME (fun n =>
        match findColumnByName tbl n with
        | some c => Except.ok c.id
        | none => Except.error ("index contains unknown column " ++ n))
        (srcCols.map (fun c => c.name)) = Except.ok (idsOfCols srcCols) := by
  intro l
  induction l with
  | nil => intro _; rfl
  | cons c cs ih =>
    intro h
    have hc : findColumnByName tbl c.name = some c := h c (by simp)
    simp only [List.map_cons, mapME, hc]
    rw [ih (fun d hd => h d (by simp [hd]))]
    rfl

theorem allocateOneIndex_skip (tbl : TableDescriptor) (nextID : Nat) (idx : IndexDescriptor)
    (hid : idx.id ≠ 0) (hcols : idx.columnIDs ≠ []) :
    allocateOneIndex tbl nextID idx = Except.ok (nextID, idx) := by
  have h1 : (idx.id == 0) = false := by simp [hid]
  have h2 : idx.columnIDs.isEmpty = false := by
    cases hc : idx.columnIDs with
    | nil => exact absurd hc hcols
    | cons a as => rfl
  simp [allocateOneIndex, h1, h2]

theorem allocateOneIndex_new (ctx : TableDescriptor) (nextID : Nat)
    (tbl : TableDescriptor) (srcCols : List ColumnDescriptor) (cname : String)
    (ref : ForeignKeyReference)
    (h : ∀ c ∈ srcCols, findColumnByName ctx c.name = some c) :
    allocateOneIndex ctx nextID (autoFKIdx tbl srcCols cname ref) =
      Except.ok (nextID + 1,
        { autoFKIdx tbl srcCols cname ref with
            id := nextID, columnIDs := idsOfCols srcCols }) := by
  cases srcCols with
  | nil => rfl
  | cons c cs =>
    simp only [allocateOneIndex, autoFKIdx, beq_self_eq_true, if_true, List.map_cons,
      List.isEmpty_cons, List.isEmpty_nil, Bool.not_false, Bool.and_true, Bool.true_and]
    have hm := mapME_colIDs ctx (c :: cs) h
    simp only [List.map_cons] at hm
    rw [hm]
    rfl

theorem allocFold_skip (tbl : TableDescriptor) :
    ∀ (l acc : List IndexDescriptor) (n : Nat),
      (∀ idx ∈ l, idx.id ≠ 0 ∧ idx.columnIDs ≠ []) →
      List.foldlM (fun (a : Nat × List IndexDescriptor) idx => do
          let r ← allocateOneIndex tbl a.1 idx
          Except.ok (r.1, a.2 ++ [r.2])) (n, acc) l = Except.ok (n, acc ++ l) := by
  intro l
  induction l with
  | nil =>
    intro acc n _
    show Except.ok (n, acc) = Except.ok (n, acc ++ [])
    rw [List.append_nil]
  | cons x xs ih =>
    intro acc n h
    have hx := h x (by simp)
    simp only [List.foldlM]
    rw [allocateOneIndex_skip tbl n x hx.1 hx.2, ok_bind, ok_bind]
    rw [ih (acc ++ [x]) n (fun idx hidx => h idx (by simp [hidx]))]
    simp

theorem allocateIDs_skip (tbl : TableDescriptor)
    (h : ∀ idx ∈ tbl.indexes, idx.id ≠ 0 ∧ idx.columnIDs ≠ []) :
    allocateIDs tbl = Except.ok tbl := by
  unfold allocateIDs
  rw [allocFold_skip tbl tbl.indexes [] tbl.nextIndexID h]
  rfl

theorem allocateIDs_append_new (tbl : TableDescriptor)
    (srcCols : List ColumnDescriptor) (cname : String) (ref : ForeignKeyReference)
    (hold : ∀ idx ∈ tbl.indexes, idx.id ≠ 0 ∧ idx.columnIDs ≠ [])
    (hcols : ∀ c ∈ srcCols, findColumnByName tbl c.name = some c) :
    allocateIDs { tbl with indexes := tbl.indexes ++ [autoFKIdx tbl srcCols cname ref] } =
      Except.ok { tbl with
        indexes := tbl.indexes ++
          [{ autoFKIdx tbl srcCols cname ref with
              id := tbl.nextIndexID, columnIDs := idsOfCols srcCols }]
        nextIndexID := tbl.nextIndexID + 1 } := by
  unfold allocateIDs
  rw [List.foldlM_append]
  rw [allocFold_skip _ tbl.indexes [] tbl.nextIndexID hold, ok_bind]
  simp only [List.nil_append, List.foldlM]
  rw [allocateOneIndex_new
    { tbl with indexes := tbl.indexes ++ [autoFKIdx tbl srcCols cname ref] }
    tbl.nextIndexID tbl srcCols cname ref hcols, ok_bind, ok_bind]
  rfl

theorem addIndexForFK_spec (tbl : TableDescriptor) (srcCols : List ColumnDescriptor)
    (cname : String) (ref : ForeignKeyReference)
    (hold : ∀ idx ∈ tbl.indexes, idx.id ≠ 0 ∧ idx.columnIDs ≠ [])
    (hcols : ∀ c ∈ srcCols, findColumnByName tbl c.name = some c) :
    addIndexForFK tbl srcCols cname ref =
      Except.ok
        ({ tbl with
            indexes := tbl.indexes ++
              [{ autoFKIdx tbl srcCols cname ref with
                  id := tbl.nextIndexID, columnIDs := idsOfCols srcCols }]
            nextIndexID := tbl.nextIndexID + 1 },
          tbl.nextIndexID) := by
  have hm : matchesIndex srcCols
      { autoFKIdx tbl srcCols cname ref with
          id := tbl.nextIndexID, columnIDs := idsOfCols srcCols } false = true := by
    rw [matchesIndex_prefix_iff]
    refine ⟨by simp [idsOfCols], ?_⟩
    show (idsOfCols srcCols).take srcCols.length = idsOfCols srcCols
    rw [show srcCols.length = (idsOfCols srcCols).length from by simp [idsOfCols]]
    exact List.take_length _
  rw [show addIndexForFK tbl srcCols cname ref = (do
    let tbl3 ← allocateIDs
      { tbl with indexes := tbl.indexes ++ [autoFKIdx tbl srcCols cname ref] }
    match tbl3.indexes.getLast? with
    | none => Except.error "no matching index and auto-generated index failed to match"
    | some added =>
      if matchesIndex srcCols added false then Except.ok (tbl3, added.id)
      else Except.error "no matching index and auto-generated index failed to match")
    from rfl]
  rw [allocateIDs_append_new tbl srcCols cname ref hold hcols, ok_bind]
  simp only [List.getLast?_concat]
  rw [hm]
  simp

/-- C2: the source-index resolution of `resolveFK` accepts an exact-or-prefix
column match — the primary index when the source columns are an initial
segment of it and it carries no FK; the first matching secondary index
otherwise; and when no index matches, Unvalidated mode fails with the
"foreign key requires an existing index on columns ..." error while
Validated mode appends a new non-unique all-ascending index named
`{table}_auto_index_{constraint}` over exactly the source columns, runs
`AllocateIDs` on it, and uses it as the source index. -/
theorem fk_source_index_selection (tbl : TableDescriptor) (srcCols : List ColumnDescriptor)
    (cname : String) (ref : ForeignKeyReference) :
    (matchesIndex srcCols tbl.primaryIndex false = true →
      tbl.primaryIndex.foreignKey = none →
      ∀ mode, resolveSrcIdx tbl srcCols cname ref mode =
        Except.ok
          ({ tbl with primaryIndex := { tbl.primaryIndex with foreignKey := some ref } },
            tbl.primaryIndex.id)) ∧
    (matchesIndex srcCols tbl.primaryIndex false = false →
      ∀ i idx, tbl.indexes.get? i = some idx → matchesIndex srcCols idx false = true →
        idx.foreignKey = none →
        (∀ j jdx, j < i → tbl.indexes.get? j = some jdx →
          matchesIndex srcCols jdx false = false) →
        ∀ mode, resolveSrcIdx tbl srcCols cname ref mode =
          Except.ok
            ({ tbl with indexes :=
                updateIdxAt (fun x => { x with foreignKey := some ref }) i tbl.indexes },
              idx.id)) ∧
    (matchesIndex srcCols tbl.primaryIndex false = false →
      (∀ idx ∈ tbl.indexes, matchesIndex srcCols idx false = false) →
      resolveSrcIdx tbl srcCols cname ref Validity.unvalidated =
        Except.error
          ("foreign key requires an existing index on columns " ++ colNames srcCols)) ∧
    (matchesIndex srcCols tbl.primaryIndex false = false →
      (∀ idx ∈ tbl.indexes, matchesIndex srcCols idx false = false) →
      (∀ idx ∈ tbl.indexes, idx.id ≠ 0 ∧ idx.columnIDs ≠ []) →
      (∀ c ∈ srcCols, findColumnByName tbl c.name = some c) →
      resolveSrcIdx tbl srcCols cname ref Validity.validated =
        Except.ok
          ({ tbl with
              indexes := tbl.indexes ++
                [{ autoFKIdx tbl srcCols cname ref with
                    id := tbl.nextIndexID, columnIDs := idsOfCols srcCols }]
              nextIndexID := tbl.nextIndexID + 1 },
            tbl.nextIndexID)) := by
  refine ⟨?_, ?_, ?_, ?_⟩
  · intro hm hfk mode
    unfold resolveSrcIdx
    rw [hm]
    simp [hfk]
  · intro hm i idx hget hmi hfk hmin mode
    unfold resolveSrcIdx
    rw [hm]
    simp only [Bool.false_eq_true, if_false]
    rw [setSrcFK_first srcCols ref tbl.indexes i idx hget hmi hfk hmin, ok_bind]
  · intro hm hall
    unfold resolveSrcIdx
    rw [hm]
    simp only [Bool.false_eq_true, if_false]
    rw [setSrcFK_eq_none srcCols ref tbl.indexes hall, ok_bind]
    rfl
  · intro hm hall hold hcols
    unfold resolveSrcIdx
    rw [hm]
    simp only [Bool.false_eq_true, if_false]
    rw [setSrcFK_eq_none srcCols ref tbl.indexes hall, ok_bind]
    show addIndexForFK tbl srcCols cname ref = _
    rw [addIndexForFK_spec tbl srcCols cname ref hold hcols]

theorem error_bind {α β : Type} (e : String) (f : α → Except String β) :
    ((Except.error e : Except String α) >>= f) = Except.error e := rfl

theorem mapME_ok_get {α β : Type} (f : α → Except String β) :
    ∀ (l : List α) (out : List β), mapME f l = Except.ok out →
      out.length = l.length ∧
      ∀ i x, l.get? i = some x → ∃ y, out.get? i = some y ∧ f x = Except.ok y := by
  intro l
  induction l with
  | nil =>
    intro out h
    cases out with
    | nil => exact ⟨rfl, fun i x hx => by simp at hx⟩
    | cons y ys => simp [mapME] at h
  | cons x xs ih =>
    intro out h
    unfold mapME at h
    cases hfx : f x with
    | error e => rw [hfx, error_bind] at h; exact Except.noConfusion h
    | ok y =>
      rw [hfx, ok_bind] at h
      cases hrest : mapME f xs with
      | error e => rw [hrest, error_bind] at h; exact Except.noConfusion h
      | ok ys =>
        rw [hrest, ok_bind] at h
        simp only [Except.ok.injEq] at h
        subst h
        obtain ⟨hlen, hget⟩ := ih ys hrest
        refine ⟨by simp [hlen], ?_⟩
        intro i z hz
        cases i with
        | zero =>
          simp only [List.get?_cons_zero, Option.some.injEq] at hz
          subst hz
          exact ⟨y, rfl, hfx⟩
        | succ n =>
          simp only [List.get?_cons_succ] at hz ⊢
          exact hget n z hz

theorem zip_get?_some {α β : Type} :
    ∀ (l1 : List α) (l2 : List β) (i : Nat) (x : α) (y : β),
      l1.get? i = some x → l2.get? i = some y → (l1.zip l2).get? i = some (x, y) := by
  intro l1
  induction l1 with
  | nil => intro l2 i x y h; simp at h
  | cons a as ih =>
    intro l2 i x y h1 h2
    cases l2 with
    | nil => simp at h2
    | cons b bs =>
      cases i with
      | zero =>
        simp only [List.get?_cons_zero, Option.some.injEq] at h1 h2
        subst h1; subst h2
        rfl
      | succ n =>
        simp only [List.get?_cons_succ] at h1 h2
        simpa using ih bs n x y h1 h2

theorem get?_isSome_of_lt {α : Type} :
    ∀ (l : List α) (i : Nat), i < l.length → ∃ x, l.get? i = some x := by
  intro l
  induction l with
  | nil => intro i h; simp at h
  | cons a as ih =>
    intro i h
    cases i with
    | zero => exact ⟨a, rfl⟩
    | succ n => simpa using ih n (by simpa using h)

theorem stripParens_ne_paren : ∀ (e e2 : PExpr), stripParens e ≠ PExpr.paren e2
  | .paren e, e2 => by simpa [stripParens] using stripParens_ne_paren e e2
  | .tuple es, _ => by simp [stripParens]
  | .defaultVal, _ => by simp [stripParens]
  | .maxVal, _ => by simp [stripParens]
  | .placeholder k, _ => by simp [stripParens]
  | .lit t v, _ => by simp [stripParens]

/-- C4: `valueEncodePartitionTuple` strips parentheses and wraps a non-tuple
as a 1-tuple; it fails when the resulting arity differs from the number of
partition columns; it fails whenever a placeholder appears; DEFAULT is
accepted only under PARTITION BY LIST and MAXVALUE only under PARTITION BY
RANGE; and each accepted special encodes as the reserved NOT NULL tag, the
token that carries no column id. -/
theorem partitionTuple_encoding (typ : PartitionByType) (cols : List ColumnDescriptor) :
    (∀ e, valueEncodePartitionTuple typ (PExpr.paren e) cols =
      valueEncodePartitionTuple typ e cols) ∧
    (∀ e, (∀ es, stripParens e ≠ PExpr.tuple es) →
      valueEncodePartitionTuple typ e cols =
        valueEncodePartitionTuple typ (PExpr.tuple [stripParens e]) cols) ∧
    (∀ es, es.length ≠ cols.length →
      valueEncodePartitionTuple typ (PExpr.tuple es) cols =
        Except.error ("partition has " ++ Nat.repr cols.length ++ " columns but " ++
          Nat.repr es.length ++ " values were supplied")) ∧
    (∀ es k, PExpr.placeholder k ∈ es →
      ∀ out, valueEncodePartitionTuple typ (PExpr.tuple es) cols ≠ Except.ok out) ∧
    (∀ es, typ = PartitionByType.range → PExpr.defaultVal ∈ es →
      ∀ out, valueEncodePartitionTuple typ (PExpr.tuple es) cols ≠ Except.ok out) ∧
    (∀ es, typ = PartitionByType.list → PExpr.maxVal ∈ es →
      ∀ out, valueEncodePartitionTuple typ (PExpr.tuple es) cols ≠ Except.ok out) ∧
    (∀ es out i, valueEncodePartitionTuple typ (PExpr.tuple es) cols = Except.ok out →
      (es.get? i = some PExpr.defaultVal ∨ es.get? i = some PExpr.maxVal) →
      out.get? i = some EncElem.notNullTag) := by
  have extract : ∀ es out, valueEncodePartitionTuple typ (PExpr.tuple es) cols = Except.ok out →
      es.length = cols.length ∧
      mapME (fun p => encodePartElem typ p.2 p.1) (es.zip cols) = Except.ok out := by
    intro es out h
    simp only [valueEncodePartitionTuple, stripParens] at h
    cases hbe : (es.length != cols.length) with
    | true => rw [hbe] at h; simp at h
    | false =>
      rw [hbe] at h
      simp only [Bool.false_eq_true, if_false] at h
      refine ⟨?_, h⟩
      simpa using hbe
  have elemAt : ∀ (es : List PExpr) (x : PExpr) (out : List EncElem) (i : Nat),
      es.length = cols.length →
      mapME (fun p => encodePartElem typ p.2 p.1) (es.zip cols) = Except.ok out →
      es.get? i = some x →
      ∃ c y, cols.get? i = some c ∧ out.get? i = some y ∧
        encodePartElem typ c x = Except.ok y := by
    intro es x out i hlen hmap hi
    have hilt : i < es.length := by
      by_contra hge
      rw [List.get?_eq_none.mpr (Nat.le_of_not_lt hge)] at hi
      cases hi
    obtain ⟨c, hc⟩ := get?_isSome_of_lt cols i (hlen ▸ hilt)
    have hz := zip_get?_some es cols i x c hi hc
    obtain ⟨y, hy1, hy2⟩ := (mapME_ok_get _ _ _ hmap).2 i (x, c) hz
    exact ⟨c, y, hc, hy1, hy2⟩
  refine ⟨fun e => rfl, ?_, ?_, ?_, ?_, ?_, ?_⟩
  · intro e hnt
    cases hs : stripParens e with
    | paren e2 => exact absurd hs (stripParens_ne_paren e e2)
    | tuple es2 => exact absurd hs (hnt es2)
    | defaultVal => simp only [valueEncodePartitionTuple, hs, stripParens]
    | maxVal => simp only [valueEncodePartitionTuple, hs, stripParens]
    | placeholder k => simp only [valueEncodePartitionTuple, hs, stripParens]
    | lit t v => simp only [valueEncodePartitionTuple, hs, stripParens]
  · intro es hne
    simp only [valueEncodePartitionTuple, stripParens]
    rw [show (es.length != cols.length) = true from bne_iff_ne.mpr hne]
    simp
  · intro es k hmem out hok
    obtain ⟨hlen, hmap⟩ := extract es out hok
    obtain ⟨i, hi⟩ := List.get?_of_mem hmem
    obtain ⟨c, y, _, _, hy⟩ := elemAt es _ out i hlen hmap hi
    exact Except.noConfusion hy
  · intro es htyp hmem out hok
    subst htyp
    obtain ⟨hlen, hmap⟩ := extract es out hok
    obtain ⟨i, hi⟩ := List.get?_of_mem hmem
    obtain ⟨c, y, _, _, hy⟩ := elemAt es _ out i hlen hmap hi
    exact Except.noConfusion hy
  · intro es htyp hmem out hok
    subst htyp
    obtain ⟨hlen, hmap⟩ := extract es out hok
    obtain ⟨i, hi⟩ := List.get?_of_mem hmem
    obtain ⟨c, y, _, _, hy⟩ := elemAt es _ out i hlen hmap hi
    exact Except.noConfusion hy
  · intro es out i hok hor
    obtain ⟨hlen, hmap⟩ := extract es out hok
    rcases hor with hi | hi
    · obtain ⟨c, y, _, hout, hy⟩ := elemAt es _ out i hlen hmap hi
      cases typ with
      | range => exact Except.noConfusion hy
      | list =>
        have hy2 : EncElem.notNullTag = y := Except.ok.inj hy
        rw [hout, ← hy2]
    · obtain ⟨c, y, _, hout, hy⟩ := elemAt es _ out i hlen hmap hi
      cases typ with
      | list => exact Except.noConfusion hy
      | range =>
        have hy2 : EncElem.notNullTag = y := Except.ok.inj hy
        rw [hout, ← hy2]

theorem forME_ok_mem {α : Type} (f : α → Except String Unit) :
    ∀ l : List α, forME f l = Except.ok () → ∀ x ∈ l, f x = Except.ok () := by
  intro l
  induction l with
  | nil => intro _ x hx; simp at hx
  | cons a as ih =>
    intro h x hx
    unfold forME at h
    cases hfa : f a with
    | error e => rw [hfa, error_bind] at h; exact Except.noConfusion h
    | ok u =>
      cases u
      rw [hfa, ok_bind] at h
      rcases List.mem_cons.mp hx with rfl | hmem
      · exact hfa
      · exact ih h x hmem

theorem foldl_sub32 :
    ∀ (l : List InterleaveAncestor) (acc : Nat),
      (∀ a ∈ l, a.sharedPrefixLen < 2 ^ 32) →
      (l.map (fun a => a.sharedPrefixLen)).sum ≤ acc →
      acc < 2 ^ 32 →
      l.foldl (fun a b => sub32 a b.sharedPrefixLen) acc =
        acc - (l.map (fun a => a.sharedPrefixLen)).sum := by
  intro l
  induction l with
  | nil => intro acc _ _ _; simp
  | cons b bs ih =>
    intro acc hlt hsum hacc
    have hb : b.sharedPrefixLen < 2 ^ 32 := hlt b (by simp)
    have hble : b.sharedPrefixLen ≤ acc := by
      simp only [List.map_cons, List.sum_cons] at hsum
      omega
    have hstep : sub32 acc b.sharedPrefixLen = acc - b.sharedPrefixLen := by
      unfold sub32
      omega
    simp only [List.foldl_cons, List.map_cons, List.sum_cons]
    rw [hstep]
    rw [ih (acc - b.sharedPrefixLen) (fun a ha => hlt a (by simp [ha]))
      (by simp only [List.map_cons, List.sum_cons] at hsum; omega) (by omega)]
    omega

theorem interleaveColCheck_ok (pt dt : TableDescriptor) (pi ix : IndexDescriptor)
    (fields : List String) (i : Nat)
    (h : interleaveColCheck pt dt pi ix fields i = Except.ok ()) :
    ∃ pcid cid tc c pd cd,
      pi.columnIDs.get? i = some pcid ∧
      findColumnByID pt pcid = some tc ∧
      ix.columnIDs.get? i = some cid ∧
      findColumnByID dt cid = some c ∧
      fields.get? i = some c.name ∧
      c.typ = tc.typ ∧
      ix.columnDirections.get? i = some cd ∧
      pi.columnDirections.get? i = some pd ∧
      cd = pd := by
  unfold interleaveColCheck at h
  cases h1 : pi.columnIDs.get? i with
  | none => simp only [h1] at h; exact Except.noConfusion h
  | some pcid =>
  simp only [h1] at h
  cases h2 : findColumnByID pt pcid with
  | none => simp only [h2] at h; exact Except.noConfusion h
  | some tc =>
  simp only [h2] at h
  cases h3 : ix.columnIDs.get? i with
  | none => simp only [h3] at h; exact Except.noConfusion h
  | some cid =>
  simp only [h3] at h
  cases h4 : findColumnByID dt cid with
  | none => simp only [h4] at h; exact Except.noConfusion h
  | some c =>
  simp only [h4] at h
  cases h5 : fields.get? i with
  | none => simp only [h5] at h; exact Except.noConfusion h
  | some field =>
  simp only [h5] at h
  cases h6 : (field != c.name) with
  | true => simp only [h6] at h; exact Except.noConfusion h
  | false =>
  simp only [h6, Bool.false_eq_true, if_false] at h
  cases h7 : ix.columnDirections.get? i with
  | none => simp only [h7] at h; exact Except.noConfusion h
  | some cd =>
  simp only [h7] at h
  cases h8 : pi.columnDirections.get? i with
  | none => simp only [h8] at h; exact Except.noConfusion h
  | some pd =>
  simp only [h8] at h
  cases h9 : ((c.typ != tc.typ) || (cd != pd)) with
  | true => simp only [h9] at h; exact Except.noConfusion h
  | false =>
  have hfield : field = c.name := by simpa using h6
  have h9s : c.typ = tc.typ ∧ cd = pd := by
    rcases Bool.or_eq_false_iff.mp h9 with ⟨ha, hb⟩
    exact ⟨by simpa using ha, by simpa using hb⟩
  exact ⟨pcid, cid, tc, c, pd, cd, rfl, h2, rfl, h4, by rw [hfield], h9s.1, rfl, rfl, h9s.2⟩

/-- C3: `addInterleave` succeeds only when the declared field list has exactly
as many entries as the parent's primary index has key columns and each field
matches the corresponding leading column of the child index by name, by full
type equality, and by direction; on success the child index's ancestors
become the parent primary index's ancestor list plus one entry
`{parent_table_id, parent_index_id, shared_prefix_len}` with
`shared_prefix_len` equal to the parent primary-key width minus the prior
ancestors' `shared_prefix_len` (in wrapping `uint32` arithmetic, which under
the stated bounds is the plain difference), and the child table is put into
the ADD state. -/
theorem interleave_validation (parentTable desc : TableDescriptor)
    (index : IndexDescriptor) (il : InterleaveDef)
    (desc2 : TableDescriptor) (index2 : IndexDescriptor)
    (h : addInterleave parentTable desc index il = Except.ok (desc2, index2)) :
    il.dropBehavior = DropBehavior.dropDefault ∧
    il.fields.length = parentTable.primaryIndex.columnIDs.length ∧
    il.fields.length ≤ index.columnIDs.length ∧
    (∀ i, i < parentTable.primaryIndex.columnIDs.length →
      ∃ pcid cid tc c pd cd,
        parentTable.primaryIndex.columnIDs.get? i = some pcid ∧
        findColumnByID parentTable pcid = some tc ∧
        index.columnIDs.get? i = some cid ∧
        findColumnByID desc cid = some c ∧
        il.fields.get? i = some c.name ∧
        c.typ = tc.typ ∧
        index.columnDirections.get? i = some cd ∧
        parentTable.primaryIndex.columnDirections.get? i = some pd ∧
        cd = pd) ∧
    desc2 = { desc with state := TableState.addState } ∧
    index2 = { index with interleaveAncestors :=
        parentTable.primaryIndex.interleaveAncestors ++
          [{ tableID := parentTable.id
             indexID := parentTable.primaryIndex.id
             sharedPrefixLen :=
               parentTable.primaryIndex.interleaveAncestors.foldl
                 (fun a b => sub32 a b.sharedPrefixLen)
                 (parentTable.primaryIndex.columnIDs.length % 2 ^ 32) }] } ∧
    ((∀ a ∈ parentTable.primaryIndex.interleaveAncestors, a.sharedPrefixLen < 2 ^ 32) →
      (parentTable.primaryIndex.interleaveAncestors.map (fun a => a.sharedPrefixLen)).sum ≤
        parentTable.primaryIndex.columnIDs.length →
      parentTable.primaryIndex.columnIDs.length < 2 ^ 32 →
      index2.interleaveAncestors.getLast? = some
        { tableID := parentTable.id
          indexID := parentTable.primaryIndex.id
          sharedPrefixLen := parentTable.primaryIndex.columnIDs.length -
            (parentTable.primaryIndex.interleaveAncestors.map
              (fun a => a.sharedPrefixLen)).sum }) := by
  simp only [addInterleave] at h
  cases hdb : (il.dropBehavior != DropBehavior.dropDefault) with
  | true => simp only [hdb] at h; exact Except.noConfusion h
  | false =>
  simp only [hdb, Bool.false_eq_true, if_false] at h
  cases hl1 : (il.fields.length != parentTable.primaryIndex.columnIDs.length) with
  | true => simp only [hl1] at h; exact Except.noConfusion h
  | false =>
  simp only [hl1, Bool.false_eq_true, if_false] at h
  by_cases hl2 : il.fields.length > index.columnIDs.length
  · rw [if_pos hl2] at h
    exact Except.noConfusion h
  · rw [if_neg hl2] at h
    cases hfm : forME
        (interleaveColCheck parentTable desc parentTable.primaryIndex index il.fields)
        (List.range parentTable.primaryIndex.columnIDs.length) with
    | error e => rw [hfm, error_bind] at h; exact Except.noConfusion h
    | ok u =>
      cases u
      rw [hfm, ok_bind] at h
      have hpair := Except.ok.inj h
      have hdesc : desc2 = { desc with state := TableState.addState } :=
        (congrArg Prod.fst hpair).symm
      have hidx : index2 = { index with interleaveAncestors :=
          parentTable.primaryIndex.interleaveAncestors ++
            [{ tableID := parentTable.id
               indexID := parentTable.primaryIndex.id
               sharedPrefixLen :=
                 parentTable.primaryIndex.interleaveAncestors.foldl
                   (fun a b => sub32 a b.sharedPrefixLen)
                   (parentTable.primaryIndex.columnIDs.length % 2 ^ 32) }] } :=
        (congrArg Prod.snd hpair).symm
      refine ⟨by simpa using hdb, by simpa using hl1, ?_, ?_, hdesc, hidx, ?_⟩
      · have : il.fields.length = parentTable.primaryIndex.columnIDs.length := by
          simpa using hl1
        omega
      · intro i hi
        exact interleaveColCheck_ok parentTable desc parentTable.primaryIndex index
          il.fields i
          (forME_ok_mem _ _ hfm i (List.mem_range.mpr hi))
      · intro hbound hsum hlen
        rw [hidx]
        simp only [List.getLast?_concat, Option.some.injEq]
        rw [Nat.mod_eq_of_lt hlen]
        rw [foldl_sub32 parentTable.primaryIndex.interleaveAncestors
          parentTable.primaryIndex.columnIDs.length hbound hsum hlen]

/-- The interleave validation at a concrete parent and child:
`CREATE TABLE child (pid INT, cid INT, PRIMARY KEY (pid, cid))
INTERLEAVE IN PARENT parent (pid)` with `parent (pid INT PRIMARY KEY)`
produces one ancestor entry `{parent, parent primary, shared_prefix_len 1}`
and the ADD state. -/
theorem interleave_validation_witness :
    addInterleave tblParent tblChild tblChild.primaryIndex { fields := ["pid"] } =
      Except.ok ({ tblChild with state := TableState.addState },
        { tblChild.primaryIndex with
            interleaveAncestors :=
              [{ tableID := 20, indexID := 1, sharedPrefixLen := 1 }] }) ∧
    ({ fields := ["pid"] } : InterleaveDef).fields.length =
      tblParent.primaryIndex.columnIDs.length :=
  ⟨by decide,
    (interleave_validation tblParent tblChild tblChild.primaryIndex
      { fields := ["pid"] }
      { tblChild with state := TableState.addState }
      { tblChild.primaryIndex with
          interleaveAncestors :=
            [{ tableID := 20, indexID := 1, sharedPrefixLen := 1 }] }
      (by decide)).2.1⟩

theorem range_map_get_take {α : Type} (d : α) (l : List α) :
    ∀ n : Nat, n ≤ l.length →
      (List.range n).map (fun i => (l.get? i).getD d) = l.take n := by
  intro n
  induction n with
  | zero => intro _; simp
  | succ m ih =>
    intro h
    have hm : m ≤ l.length := Nat.le_of_succ_le h
    have hlt : m < l.length := h
    rw [List.range_succ, List.map_append, ih hm, List.take_succ]
    obtain ⟨x, hx⟩ := get?_isSome_of_lt l m hlt
    have hx2 : l[m]? = some x := by rw [← List.get?_eq_getElem?]; exact hx
    simp [hx2]

theorem recordFKCols_ok_inv :
    ∀ (pairs : List (Nat × String)) (seen out : List Nat),
      recordFKCols seen pairs = Except.ok out →
      (pairs.map Prod.fst).Nodup ∧ (∀ c ∈ pairs.map Prod.fst, c ∉ seen) ∧
      out = (pairs.map Prod.fst).reverse ++ seen := by
  intro pairs
  induction pairs with
  | nil =>
    intro seen out h
    have hout : seen = out := Except.ok.inj h
    exact ⟨List.nodup_nil, by simp, by simp [hout]⟩
  | cons p rest ih =>
    intro seen out h
    obtain ⟨cid, cn⟩ := p
    unfold recordFKCols at h
    by_cases hmem : cid ∈ seen
    · rw [if_pos hmem] at h
      exact Except.noConfusion h
    · rw [if_neg hmem] at h
      obtain ⟨hnd, hdis, hout⟩ := ih (cid :: seen) out h
      refine ⟨?_, ?_, ?_⟩
      · simp only [List.map_cons, List.nodup_cons]
        exact ⟨fun hc => hdis cid hc (by simp), hnd⟩
      · intro c hc
        simp only [List.map_cons, List.mem_cons] at hc
        rcases hc with rfl | hc
        · exact hmem
        · intro hcs
          exact hdis c hc (by simp [hcs])
      · rw [hout]
        simp
  
theorem recordFKCols_ok_fwd :
    ∀ (pairs : List (Nat × String)) (seen : List Nat),
      (pairs.map Prod.fst).Nodup → (∀ c ∈ pairs.map Prod.fst, c ∉ seen) →
      recordFKCols seen pairs = Except.ok ((pairs.map Prod.fst).reverse ++ seen) := by
  intro pairs
  induction pairs with
  | nil => intro seen _ _; simp [recordFKCols]
  | cons p rest ih =>
    intro seen hnd hdis
    obtain ⟨cid, cn⟩ := p
    simp only [List.map_cons, List.nodup_cons] at hnd
    have hmem : cid ∉ seen := hdis cid (by simp)
    unfold recordFKCols
    rw [if_neg hmem]
    rw [ih (cid :: seen) hnd.2 ?_]
    · simp
    · intro c hc
      simp only [List.mem_cons]
      rintro (rfl | hcs)
      · exact hnd.1 hc
      · exact hdis c (by simp [hc]) hcs

theorem checkFKColsIdx_none (seen : List Nat) (idx : IndexDescriptor)
    (hfk : idx.foreignKey = none) : checkFKColsIdx seen idx = Except.ok seen := by
  unfold checkFKColsIdx
  rw [hfk]

theorem checkFKColsIdx_some (seen : List Nat) (idx : IndexDescriptor)
    (fk : ForeignKeyReference) (hfk : idx.foreignKey = some fk) :
    checkFKColsIdx seen idx =
      if fkNumCols idx fk > idx.columnIDs.length then Except.error "index out of range"
      else recordFKCols seen ((List.range (fkNumCols idx fk)).map fun i =>
        ((idx.columnIDs.get? i).getD 0, (idx.columnNames.get? i).getD "")) := by
  unfold checkFKColsIdx
  rw [hfk]

theorem checkFKColsIdx_ok_inv (seen : List Nat) (idx : IndexDescriptor) (out : List Nat)
    (h : checkFKColsIdx seen idx = Except.ok out) :
    (fkCountedCols idx).Nodup ∧ (∀ c ∈ fkCountedCols idx, c ∉ seen) ∧
    out = (fkCountedCols idx).reverse ++ seen := by
  cases hfk : idx.foreignKey with
  | none =>
    rw [checkFKColsIdx_none seen idx hfk] at h
    have hout : seen = out := Except.ok.inj h
    simp [fkCountedCols, hfk, hout.symm]
  | some fk =>
    rw [checkFKColsIdx_some seen idx fk hfk] at h
    by_cases hgt : fkNumCols idx fk > idx.columnIDs.length
    · rw [if_pos hgt] at h
      exact Except.noConfusion h
    · rw [if_neg hgt] at h
      obtain ⟨hnd, hdis, hout⟩ := recordFKCols_ok_inv _ seen out h
      have hfst : (((List.range (fkNumCols idx fk)).map fun i =>
          ((idx.columnIDs.get? i).getD 0, (idx.columnNames.get? i).getD "")).map Prod.fst) =
          fkCountedCols idx := by
        rw [List.map_map]
        simp only [fkCountedCols, hfk]
        exact range_map_get_take 0 idx.columnIDs (fkNumCols idx fk) (Nat.le_of_not_lt hgt)
      rw [hfst] at hnd hdis hout
      exact ⟨hnd, hdis, hout⟩

theorem checkFKColsIdx_ok_fwd (seen : List Nat) (idx : IndexDescriptor)
    (hwf : ∀ fk, idx.foreignKey = some fk → fkNumCols idx fk ≤ idx.columnIDs.length)
    (hnd : (fkCountedCols idx).Nodup) (hdis : ∀ c ∈ fkCountedCols idx, c ∉ seen) :
    checkFKColsIdx seen idx = Except.ok ((fkCountedCols idx).reverse ++ seen) := by
  cases hfk : idx.foreignKey with
  | none => rw [checkFKColsIdx_none seen idx hfk]; simp [fkCountedCols, hfk]
  | some fk =>
    have hle := hwf fk hfk
    rw [checkFKColsIdx_some seen idx fk hfk]
    rw [if_neg (Nat.not_lt.mpr hle)]
    have hfst : (((List.range (fkNumCols idx fk)).map fun i =>
        ((idx.columnIDs.get? i).getD 0, (idx.columnNames.get? i).getD "")).map Prod.fst) =
        fkCountedCols idx := by
      rw [List.map_map]
      simp only [fkCountedCols, hfk]
      exact range_map_get_take 0 idx.columnIDs (fkNumCols idx fk) hle
    rw [recordFKCols_ok_fwd _ seen (by rw [hfst]; exact hnd)
      (by rw [hfst]; exact hdis), hfst]

theorem checkLoop_inv :
    ∀ (l : List IndexDescriptor) (seen out : List Nat),
      List.foldlM checkFKColsIdx seen l = Except.ok out →
      (l.flatMap fkCountedCols).Nodup ∧ (∀ c ∈ l.flatMap fkCountedCols, c ∉ seen) ∧
      out = (l.flatMap fkCountedCols).reverse ++ seen := by
  intro l
  induction l with
  | nil =>
    intro seen out h
    have hout : seen = out := Except.ok.inj h
    simp [hout.symm]
  | cons idx rest ih =>
    intro seen out h
    simp only [List.foldlM] at h
    cases h1 : checkFKColsIdx seen idx with
    | error e => rw [h1, error_bind] at h; exact Except.noConfusion h
    | ok seen1 =>
      rw [h1, ok_bind] at h
      obtain ⟨hnd1, hdis1, hseen1⟩ := checkFKColsIdx_ok_inv seen idx seen1 h1
      obtain ⟨hndR, hdisR, hout⟩ := ih seen1 out h
      have hdisjoint : (fkCountedCols idx).Disjoint (rest.flatMap fkCountedCols) := by
        intro a ha haR
        exact hdisR a haR (by rw [hseen1]; simp [ha])
      refine ⟨?_, ?_, ?_⟩
      · rw [List.flatMap_cons, List.nodup_append]
        exact ⟨hnd1, hndR, hdisjoint⟩
      · intro c hc
        rw [List.flatMap_cons, List.mem_append] at hc
        rcases hc with hc | hc
        · exact hdis1 c hc
        · intro hcs
          exact hdisR c hc (by rw [hseen1]; simp [hcs])
      · rw [hout, hseen1, List.flatMap_cons, List.reverse_append, List.append_assoc]

theorem checkLoop_fwd :
    ∀ (l : List IndexDescriptor) (seen : List Nat),
      (∀ idx ∈ l, ∀ fk, idx.foreignKey = some fk →
        fkNumCols idx fk ≤ idx.columnIDs.length) →
      (l.flatMap fkCountedCols).Nodup →
      (∀ c ∈ l.flatMap fkCountedCols, c ∉ seen) →
      List.foldlM checkFKColsIdx seen l =
        Except.ok ((l.flatMap fkCountedCols).reverse ++ seen) := by
  intro l
  induction l with
  | nil =>
    intro seen _ _ _
    simp only [List.flatMap_nil, List.reverse_nil, List.nil_append, List.foldlM]
    rfl
  | cons idx rest ih =>
    intro seen hwf hnd hdis
    rw [List.flatMap_cons, List.nodup_append] at hnd
    simp only [List.foldlM]
    rw [checkFKColsIdx_ok_fwd seen idx (hwf idx (by simp)) hnd.1
      (fun c hc => hdis c (by rw [List.flatMap_cons, List.mem_append]; exact Or.inl hc)),
      ok_bind]
    rw [ih ((fkCountedCols idx).reverse ++ seen)
      (fun j hj => hwf j (by simp [hj])) hnd.2.1 ?_]
    · rw [List.flatMap_cons, List.reverse_append, List.append_assoc]
    · intro c hc
      rw [List.mem_append]
      rintro (hrev | hseen)
      · exact hnd.2.2 (List.mem_reverse.mp hrev) hc
      · exact hdis c (by rw [List.flatMap_cons, List.mem_append]; exact Or.inr hc) hseen

/-- C5 (amended): the multiple-FK column check of `MakeTableDesc` covers only
the foreign keys carried on secondary indexes (`desc.Indexes`): it succeeds
exactly when no column is counted twice across those FKs (counting each FK's
first `shared_prefix_len` columns when positive, else its index's full column
list); a foreign key on the primary index is never counted, so the check does
not reject a table whose primary-index FK shares a column with a
secondary-index FK. -/
theorem fk_multiFK_check_secondary_only (indexes : List IndexDescriptor)
    (hwf : ∀ idx ∈ indexes, ∀ fk, idx.foreignKey = some fk →
      fkNumCols idx fk ≤ idx.columnIDs.length) :
    checkFKCols indexes = Except.ok () ↔ (indexes.flatMap fkCountedCols).Nodup := by
  constructor
  · intro h
    unfold checkFKCols at h
    cases hfold : List.foldlM checkFKColsIdx ([] : List Nat) indexes with
    | error e => rw [hfold, error_bind] at h; exact Except.noConfusion h
    | ok out => exact (checkLoop_inv indexes [] out hfold).1
  · intro hnd
    unfold checkFKCols
    rw [checkLoop_fwd indexes [] hwf hnd (by simp), ok_bind]

/-- The amended multiple-FK check at a concrete input: the auto-created index
over column `b` of the counterexample table passes the check on its own, and
the characterization applies to it. -/
theorem fk_multiFK_check_secondary_only_witness :
    (∀ idx ∈ [idxAutoB],
      ∀ fk, idx.foreignKey = some fk → fkNumCols idx fk ≤ idx.columnIDs.length) ∧
    (checkFKCols [idxAutoB] = Except.ok () ↔
      ([idxAutoB].flatMap fkCountedCols).Nodup) :=
  ⟨by decide, fk_multiFK_check_secondary_only [idxAutoB] (by decide)⟩

theorem toDigitsCore_eq_digits :
    ∀ (fuel : Nat), ∀ (n : Nat) (ds : List Char), 0 < n → n ≤ fuel →
      Nat.toDigitsCore 10 fuel n ds =
        ((Nat.digits 10 n).reverse.map Nat.digitChar) ++ ds := by
  intro fuel
  induction fuel with
  | zero => intro n ds h1 h2; omega
  | succ f ih =>
    intro n ds h1 h2
    simp only [Nat.toDigitsCore]
    by_cases hnd : n / 10 = 0
    · rw [if_pos hnd]
      rw [Nat.digits_def' (by norm_num : (1 : Nat) < 10) h1, hnd, Nat.digits_zero]
      simp
    · rw [if_neg hnd]
      have hn2 : 0 < n / 10 := Nat.pos_of_ne_zero hnd
      have hle : n / 10 ≤ f := by
        have : n / 10 < n := Nat.div_lt_self h1 (by norm_num)
        omega
      rw [ih (n / 10) (Nat.digitChar (n % 10) :: ds) hn2 hle]
      rw [Nat.digits_def' (by norm_num : (1 : Nat) < 10) h1]
      simp

theorem toDigits_eq_digits (n : Nat) (h : 0 < n) :
    Nat.toDigits 10 n = (Nat.digits 10 n).reverse.map Nat.digitChar := by
  unfold Nat.toDigits
  rw [toDigitsCore_eq_digits (n + 1) n [] h (by omega), List.append_nil]

theorem digitChar_inj_lt : ∀ a < 10, ∀ b < 10, Nat.digitChar a = Nat.digitChar b → a = b := by
  decide

theorem map_digitChar_inj :
    ∀ l1 l2 : List Nat, (∀ d ∈ l1, d < 10) → (∀ d ∈ l2, d < 10) →
      l1.map Nat.digitChar = l2.map Nat.digitChar → l1 = l2 := by
  intro l1
  induction l1 with
  | nil =>
    intro l2 _ _ h
    cases l2 with
    | nil => rfl
    | cons b bs => simp at h
  | cons a as ih =>
    intro l2 h1 h2 h
    cases l2 with
    | nil => simp at h
    | cons b bs =>
      simp only [List.map_cons, List.cons.injEq] at h
      rw [digitChar_inj_lt a (h1 a (by simp)) b (h2 b (by simp)) h.1,
        ih bs (fun d hd => h1 d (by simp [hd])) (fun d hd => h2 d (by simp [hd])) h.2]

theorem nat_repr_inj : ∀ m n : Nat, Nat.repr m = Nat.repr n → m = n := by
  have hdata : ∀ k : Nat, (Nat.repr k).data = Nat.toDigits 10 k := fun k => rfl
  have hzero : Nat.toDigits 10 0 = ['0'] := rfl
  have hpos : ∀ k : Nat, 0 < k → ∀ hk : Nat.toDigits 10 k = ['0'], False := by
    intro k hk h
    rw [toDigits_eq_digits k hk] at h
    have hdig : Nat.digits 10 k = [0] := by
      cases hd : (Nat.digits 10 k).reverse with
      | nil => rw [hd] at h; simp at h
      | cons d rest =>
        rw [hd] at h
        simp only [List.map_cons, List.cons.injEq] at h
        have hrest : rest = [] := by
          have := h.2
          cases rest with
          | nil => rfl
          | cons x xs => simp at this
        have hdlt : d < 10 := by
          have hdm : d ∈ Nat.digits 10 k := by
            have : d ∈ (Nat.digits 10 k).reverse := by rw [hd]; simp
            simpa using this
          exact Nat.digits_lt_base (by norm_num) hdm
        have hd0 : d = 0 := digitChar_inj_lt d hdlt 0 (by norm_num) h.1
        have : (Nat.digits 10 k).reverse = [0] := by rw [hd, hrest, hd0]
        have h4 := congrArg List.reverse this
        simpa using h4
    have := Nat.ofDigits_digits 10 k
    rw [hdig] at this
    simp [Nat.ofDigits] at this
    omega
  intro m n h
  have h2 : Nat.toDigits 10 m = Nat.toDigits 10 n := by
    rw [← hdata, ← hdata, h]
  by_cases hm : m = 0
  · by_cases hn : n = 0
    · rw [hm, hn]
    · subst hm
      rw [hzero] at h2
      exact absurd h2.symm (fun hc => hpos n (Nat.pos_of_ne_zero hn) hc)
  · by_cases hn : n = 0
    · subst hn
      rw [hzero] at h2
      exact absurd h2 (fun hc => hpos m (Nat.pos_of_ne_zero hm) hc)
    · rw [toDigits_eq_digits m (Nat.pos_of_ne_zero hm),
        toDigits_eq_digits n (Nat.pos_of_ne_zero hn)] at h2
      have hrev := map_digitChar_inj _ _
        (fun d hd => Nat.digits_lt_base (by norm_num) (by simpa using hd))
        (fun d hd => Nat.digits_lt_base (by norm_num) (by simpa using hd)) h2
      have hdig : Nat.digits 10 m = Nat.digits 10 n := by
        have := congrArg List.reverse hrev
        simpa using this
      exact Nat.digits.injective 10 hdig

theorem base_append_repr_inj (base : String) :
    ∀ i j : Nat, base ++ Nat.repr i = base ++ Nat.repr j → i = j := by
  intro i j h
  have h2 : (base ++ Nat.repr i).data = (base ++ Nat.repr j).data := congrArg String.data h
  rw [String.data_append, String.data_append] at h2
  have h3 : (Nat.repr i).data = (Nat.repr j).data := List.append_cancel_left h2
  exact nat_repr_inj i j (String.ext h3)

theorem exists_unused_suffix (base : String) (inuse : List String) (start : Nat) :
    ∃ j, j ≤ inuse.length ∧ (base ++ Nat.repr (start + j)) ∉ inuse := by
  by_contra hc
  push_neg at hc
  have hnd : ((List.range (inuse.length + 1)).map
      (fun j => base ++ Nat.repr (start + j))).Nodup := by
    refine List.Nodup.map_on ?_ (List.nodup_range (inuse.length + 1))
    intro x _ y _ hxy
    have := base_append_repr_inj base (start + x) (start + y) hxy
    omega
  have hsub2 : ((List.range (inuse.length + 1)).map
      (fun j => base ++ Nat.repr (start + j))).toFinset ⊆ inuse.toFinset := by
    intro x hx
    rw [List.mem_toFinset] at hx ⊢
    obtain ⟨j, hj, rfl⟩ := List.mem_map.mp hx
    exact hc j (Nat.lt_succ_iff.mp (List.mem_range.mp hj))
  have hcard1 : ((List.range (inuse.length + 1)).map
      (fun j => base ++ Nat.repr (start + j))).toFinset.card = inuse.length + 1 := by
    rw [List.toFinset_card_of_nodup hnd]
    simp
  have hcard2 : ((List.range (inuse.length + 1)).map
      (fun j => base ++ Nat.repr (start + j))).toFinset.card ≤ inuse.toFinset.card :=
    Finset.card_le_card hsub2
  have hcard3 : inuse.toFinset.card ≤ inuse.length := List.toFinset_card_le inuse
  omega

theorem findSuffixAux_spec (base : String) (inuse : List String) :
    ∀ (fuel start : Nat),
      (∃ j, j < fuel ∧ (base ++ Nat.repr (start + j)) ∉ inuse) →
      (base ++ Nat.repr (findSuffixAux base inuse fuel start)) ∉ inuse ∧
      start ≤ findSuffixAux base inuse fuel start ∧
      ∀ j, start ≤ j → j < findSuffixAux base inuse fuel start →
        (base ++ Nat.repr j) ∈ inuse := by
  intro fuel
  induction fuel with
  | zero =>
    intro start hex
    obtain ⟨j, hj, _⟩ := hex
    omega
  | succ f ih =>
    intro start hex
    unfold findSuffixAux
    by_cases hmem : (base ++ Nat.repr start) ∈ inuse
    · rw [if_pos hmem]
      have hex2 : ∃ j, j < f ∧ (base ++ Nat.repr (start + 1 + j)) ∉ inuse := by
        obtain ⟨j, hj, hnot⟩ := hex
        cases j with
        | zero => exact absurd (by simpa using hmem) hnot
        | succ k =>
          refine ⟨k, by omega, ?_⟩
          rw [show start + 1 + k = start + (k + 1) from by omega]
          exact hnot
      obtain ⟨h1, h2, h3⟩ := ih (start + 1) hex2
      refine ⟨h1, by omega, ?_⟩
      intro j hj1 hj2
      by_cases hjs : j = start
      · rw [hjs]; exact hmem
      · exact h3 j (by omega) hj2
    · rw [if_neg hmem]
      exact ⟨by simpa using hmem, Nat.le_refl _, fun j h1 h2 => absurd h1 (by omega)⟩

theorem pickCheckName_spec (base : String) (inuse : List String) :
    (base ∉ inuse → pickCheckName base inuse = base) ∧
    (base ∈ inuse →
      pickCheckName base inuse ∉ inuse ∧
      ∃ i, 1 ≤ i ∧ pickCheckName base inuse = base ++ Nat.repr i ∧
        ∀ j, 1 ≤ j → j < i → (base ++ Nat.repr j) ∈ inuse) := by
  constructor
  · intro h
    unfold pickCheckName
    rw [if_neg h]
  · intro h
    unfold pickCheckName
    rw [if_pos h]
    obtain ⟨j, hj, hnot⟩ := exists_unused_suffix base inuse 1
    obtain ⟨h1, h2, h3⟩ := findSuffixAux_spec base inuse (inuse.length + 1) 1
      ⟨j, by omega, hnot⟩
    exact ⟨h1, findSuffixAux base inuse (inuse.length + 1) 1, h2, rfl,
      fun k hk1 hk2 => h3 k hk1 hk2⟩

/-- C7: an unnamed check constraint gets the synthesized name "check" plus
one "_{col}" per referenced column occurrence, then — when that name is
already used in the statement — the smallest numeric suffix (starting at 1)
making it unused; and the stored constraint expression is the serialization
of the original expression, not the dummy-substituted typed tree.  On
`CREATE TABLE t (a INT, CHECK (a > 0), CHECK (a < 10))` this yields the
names `check_a` and `check_a1`. -/
theorem check_constraint_naming :
    (∀ (desc : TableDescriptor) (d : CheckDef) (inuse : List String)
        (ck : CheckConstraint) (inuse2 : Option (List String))
        (e2 : CkExpr) (cols : List String),
      d.name = "" →
      visitCk desc d.expr = Except.ok (e2, cols) →
      makeCheckConstraint desc d (some inuse) = Except.ok (ck, inuse2) →
      ck.expr = serializeCk d.expr ∧
      (("check" ++ String.join (cols.map (fun c => "_" ++ c))) ∉ inuse →
        ck.name = "check" ++ String.join (cols.map (fun c => "_" ++ c))) ∧
      (("check" ++ String.join (cols.map (fun c => "_" ++ c))) ∈ inuse →
        ck.name ∉ inuse ∧
        ∃ i, 1 ≤ i ∧
          ck.name = ("check" ++ String.join (cols.map (fun c => "_" ++ c))) ++ Nat.repr i ∧
          ∀ j, 1 ≤ j → j < i →
            ("check" ++ String.join (cols.map (fun c => "_" ++ c))) ++ Nat.repr j ∈ inuse)) ∧
    makeCheckConstraints tblT
      [{ expr := CkExpr.bin ">" (CkExpr.colRef "a") (CkExpr.intLit 0) },
       { expr := CkExpr.bin "<" (CkExpr.colRef "a") (CkExpr.intLit 10) }] =
      Except.ok [{ expr := "a > 0", name := "check_a" },
        { expr := "a < 10", name := "check_a1" }] := by
  constructor
  · intro desc d inuse ck inuse2 e2 cols hname hvisit hmk
    unfold makeCheckConstraint at hmk
    rw [hvisit, ok_bind] at hmk
    rw [show (d.name == "") = true from by simp [hname]] at hmk
    simp only [if_true] at hmk
    have hpair := Except.ok.inj hmk
    have hck : ck = CheckConstraint.mk (serializeCk d.expr)
        (pickCheckName ("check" ++ String.join (cols.map (fun c => "_" ++ c))) inuse) :=
      (congrArg Prod.fst hpair).symm
    obtain ⟨hs1, hs2⟩ :=
      pickCheckName_spec ("check" ++ String.join (cols.map (fun c => "_" ++ c))) inuse
    rw [hck]
    exact ⟨rfl, fun h => by simp [hs1 h], fun h => by simpa using hs2 h⟩
  · decide
